import Mathlib

/-!
Verification of the fastquadtree core: the geometry primitives (`geom.rs`),
the quadtree index (`lib.rs`) and the identifier/payload store (`obj_store.rs`).

Modelling conventions:
* `f64` coordinates are modelled by `ℚ` (exact arithmetic; the source only
  adds, halves and compares coordinates, so `ℚ` is the idealisation of the
  floating-point arithmetic with rounding removed).
* Rust `u64` / `usize` identifiers are modelled by `ℕ`; the source guard
  `id > usize::MAX as u64` is kept as an explicit bound `usizeMax`.
* The opaque payload handle `Py<PyAny>` is modelled by its address (a `ℕ`):
  the store only ever uses the handle's pointer identity (`obj_key_ptr`).
* `QuadTree::insert` / `QuadTree::split` recurse with no structural bound in
  the source, so their embeddings take an explicit fuel argument; `none`
  means the recursion did not complete within the given depth.
-/

namespace FastQuadtree

/-- `Point` from `geom.rs`. -/
structure Point where
  x : ℚ
  y : ℚ
deriving DecidableEq

/-- `Rect` from `geom.rs`. -/
structure Rect where
  min_x : ℚ
  min_y : ℚ
  max_x : ℚ
  max_y : ℚ
deriving DecidableEq

/-- `Rect::contains`: half-open containment test. -/
def Rect.contains (r : Rect) (p : Point) : Bool :=
  decide (p.x ≥ r.min_x) && decide (p.x < r.max_x) &&
  decide (p.y ≥ r.min_y) && decide (p.y < r.max_y)

/-- `Rect::intersects`: strict interval-overlap test. -/
def Rect.intersects (r other : Rect) : Bool :=
  decide (r.min_x < other.max_x) && decide (r.max_x > other.min_x) &&
  decide (r.min_y < other.max_y) && decide (r.max_y > other.min_y)

/-- `Item` from `lib.rs`: an external identifier plus a point. -/
structure Item where
  id : ℕ
  point : Point
deriving DecidableEq

/-- `QuadTree` from `lib.rs`.  The field `children : Option<Box<[QuadTree; 4]>>`
is modelled by the two constructors: `leaf` is `children == None`, `node`
carries the four children. -/
inductive QuadTree : Type where
  | leaf (boundary : Rect) (items : List Item) (capacity : ℕ) : QuadTree
  | node (boundary : Rect) (items : List Item) (capacity : ℕ)
      (c0 c1 c2 c3 : QuadTree) : QuadTree
deriving DecidableEq

/-- The `boundary` field. -/
def QuadTree.boundary : QuadTree → Rect
  | .leaf b _ _ => b
  | .node b _ _ _ _ _ _ => b

/-- The `items` field (items stored directly at this node). -/
def QuadTree.items : QuadTree → List Item
  | .leaf _ its _ => its
  | .node _ its _ _ _ _ _ => its

/-- The `capacity` field. -/
def QuadTree.capacity : QuadTree → ℕ
  | .leaf _ _ c => c
  | .node _ _ c _ _ _ _ => c

/-- `QuadTree::new`: a fresh leaf with no items. -/
def QuadTree.new (boundary : Rect) (capacity : ℕ) : QuadTree :=
  .leaf boundary [] capacity

/-- `child_index_for_point` from `lib.rs`: midpoint bit comparison,
`(y_ge << 1) | x_ge`. -/
def child_index_for_point (b : Rect) (p : Point) : ℕ :=
  let cx := (1/2 : ℚ) * (b.min_x + b.max_x)
  let cy := (1/2 : ℚ) * (b.min_y + b.max_y)
  let x_ge : ℕ := if p.x ≥ cx then 1 else 0
  let y_ge : ℕ := if p.y ≥ cy then 1 else 0
  (y_ge <<< 1) ||| x_ge

/-- The four child rectangles built by `QuadTree::split` (the `quads` array). -/
def quadRect (b : Rect) (i : ℕ) : Rect :=
  let cx := (1/2 : ℚ) * (b.min_x + b.max_x)
  let cy := (1/2 : ℚ) * (b.min_y + b.max_y)
  match i with
  | 0 => ⟨b.min_x, b.min_y, cx, cy⟩
  | 1 => ⟨cx, b.min_y, b.max_x, cy⟩
  | 2 => ⟨b.min_x, cy, cx, b.max_y⟩
  | _ => ⟨cx, cy, b.max_x, b.max_y⟩

/-- The four children of a node, as in the source's `[QuadTree; 4]`. -/
abbrev Kids := QuadTree × QuadTree × QuadTree × QuadTree

/-- Array indexing `kids[idx]` (indices computed by `child_index_for_point`
are always `< 4`). -/
def getChild : ℕ → Kids → QuadTree
  | 0, (c, _, _, _) => c
  | 1, (_, c, _, _) => c
  | 2, (_, _, c, _) => c
  | _, (_, _, _, c) => c

/-- Array update `kids[idx] = k`. -/
def setChild : ℕ → Kids → QuadTree → Kids
  | 0, (_, c1, c2, c3), k => (k, c1, c2, c3)
  | 1, (c0, _, c2, c3), k => (c0, k, c2, c3)
  | 2, (c0, c1, _, c3), k => (c0, c1, k, c3)
  | _, (c0, c1, c2, _), k => (c0, c1, c2, k)

/-- The freshly created children of `QuadTree::split` (the `kids` array). -/
def freshKids (b : Rect) (cap : ℕ) : Kids :=
  (QuadTree.new (quadRect b 0) cap, QuadTree.new (quadRect b 1) cap,
   QuadTree.new (quadRect b 2) cap, QuadTree.new (quadRect b 3) cap)

/-- Rebuild a node from its boundary, direct items and child array
(`self.children = Some(Box::new(kids))`). -/
def nodeOfKids (b : Rect) (items : List Item) (cap : ℕ) (kids : Kids) : QuadTree :=
  .node b items cap kids.1 kids.2.1 kids.2.2.1 kids.2.2.2

/-- The drain loop of `QuadTree::split`: re-insert each drained item into the
child quadrant selected by `child_index_for_point`, ignoring the returned
flag exactly as the source's `kids[idx].insert(it)` does.  `ins` is the
insertion routine used on the children. -/
def splitItemsGo (ins : QuadTree → Item → Option (QuadTree × Bool)) (b : Rect) :
    List Item → Kids → Option Kids
  | [], kids => some kids
  | it :: rest, kids =>
    match ins (getChild (child_index_for_point b it.point) kids) it with
    | none => none
    | some (k, _) =>
      splitItemsGo ins b rest (setChild (child_index_for_point b it.point) kids k)

/-- `QuadTree::insert`, with explicit recursion fuel: the source recursion has
no structural bound, and `none` records that the nested splits did not finish
within `fuel` levels.  A completed call returns the updated tree and the
boolean the source returns. -/
def insertFuel : ℕ → QuadTree → Item → Option (QuadTree × Bool)
  | 0, _, _ => none
  | fuel + 1, t, item =>
    if t.boundary.contains item.point = false then some (t, false)
    else
      match t with
      | .leaf b items cap =>
        if items.length < cap then some (.leaf b (items ++ [item]) cap, true)
        else
          match splitItemsGo (insertFuel fuel) b items (freshKids b cap) with
          | none => none
          | some kids =>
            match insertFuel fuel
                (getChild (child_index_for_point b item.point) kids) item with
            | none => none
            | some (k, r) =>
              some (nodeOfKids b [] cap
                (setChild (child_index_for_point b item.point) kids k), r)
      | .node b items cap c0 c1 c2 c3 =>
        match insertFuel fuel
            (getChild (child_index_for_point b item.point) (c0, c1, c2, c3)) item with
        | none => none
        | some (k, r) =>
          some (nodeOfKids b items cap
            (setChild (child_index_for_point b item.point) (c0, c1, c2, c3) k), r)

/-- `QuadTree::split` as a standalone operation: drain the node's items into
four fresh children (inserting with the given fuel) and turn the node into an
internal node with an empty item list. -/
def splitFuel (fuel : ℕ) (t : QuadTree) : Option QuadTree :=
  match splitItemsGo (insertFuel fuel) t.boundary t.items
      (freshKids t.boundary t.capacity) with
  | none => none
  | some kids => some (nodeOfKids t.boundary [] t.capacity kids)

/-- `QuadTree::query_into` (`out` is the accumulator vector being pushed into). -/
def query_into : QuadTree → Rect → List Item → List Item
  | .leaf b items _, range, out =>
    if Rect.intersects b range = false then out
    else out ++ items.filter (fun it => range.contains it.point)
  | .node b items _ c0 c1 c2 c3, range, out =>
    if Rect.intersects b range = false then out
    else
      query_into c3 range (query_into c2 range (query_into c1 range
        (query_into c0 range
          (out ++ items.filter (fun it => range.contains it.point)))))

/-- `QuadTree::query`. -/
def query (t : QuadTree) (range : Rect) : List Item :=
  query_into t range []

/-- Every item currently stored anywhere in the tree, in pre-order. -/
def allItems : QuadTree → List Item
  | .leaf _ items _ => items
  | .node _ items _ c0 c1 c2 c3 =>
    items ++ allItems c0 ++ allItems c1 ++ allItems c2 ++ allItems c3

/-- The stored items as a multiset (the order in which a traversal meets them
is irrelevant to the correctness statements). -/
def itemsMS (t : QuadTree) : Multiset Item := (allItems t : Multiset Item)

/-- Total stored-item multiset of a child array. -/
def msSum (kids : Kids) : Multiset Item :=
  itemsMS kids.1 + itemsMS kids.2.1 + itemsMS kids.2.2.1 + itemsMS kids.2.2.2

/-- Structural invariant of trees the public operations produce: every item
stored in a subtree lies (half-open) in that subtree's boundary, and the four
children of an internal node carry exactly the four quadrant rectangles of
the parent boundary. -/
def WF : QuadTree → Prop
  | .leaf b items _ => ∀ it ∈ items, b.contains it.point = true
  | .node b items _ c0 c1 c2 c3 =>
    (∀ it ∈ items ++ allItems c0 ++ allItems c1 ++ allItems c2 ++ allItems c3,
      b.contains it.point = true) ∧
    c0.boundary = quadRect b 0 ∧ c1.boundary = quadRect b 1 ∧
    c2.boundary = quadRect b 2 ∧ c3.boundary = quadRect b 3 ∧
    WF c0 ∧ WF c1 ∧ WF c2 ∧ WF c3

/-- The claim-C7 invariant: a node that has children stores no items directly. -/
def onlyLeavesHoldItems : QuadTree → Prop
  | .leaf _ _ _ => True
  | .node _ items _ c0 c1 c2 c3 =>
    items = [] ∧ onlyLeavesHoldItems c0 ∧ onlyLeavesHoldItems c1 ∧
    onlyLeavesHoldItems c2 ∧ onlyLeavesHoldItems c3

/-- Trees reachable from `QuadTree::new` by completed `insert` calls. -/
inductive Reachable : QuadTree → Prop
  | new (b : Rect) (cap : ℕ) : Reachable (QuadTree.new b cap)
  | ins (t : QuadTree) (it : Item) (f : ℕ) (t' : QuadTree) (r : Bool) :
      Reachable t → insertFuel f t it = some (t', r) → Reachable t'

/-- `StoreError` from `obj_store.rs`. -/
inductive StoreError : Type where
  | IdDoesNotFitUsize : StoreError
  | IdOutOfBounds : StoreError
  | OutOfOrderId : StoreError
deriving DecidableEq

/-- `StoreResult<T>`. -/
abbrev StoreResult (T : Type) := Except StoreError T

/-- `usize::MAX` on the 64-bit platform the crate targets. -/
def usizeMax : ℕ := 2 ^ 64 - 1

/-- `u64_to_usize` from `obj_store.rs`. -/
def u64_to_usize (id : ℕ) : StoreResult ℕ :=
  if id > usizeMax then .error .IdDoesNotFitUsize else .ok id

/-- A payload handle `Py<PyAny>`, modelled by its address; `obj_key_ptr` is
then the identity function, so the reverse map is keyed by the handle itself. -/
abbrev PyObj := ℕ

/-- `Entry<G>` from `obj_store.rs`: a geometric key and an optional payload
(`obj = none` means "no payload"). -/
structure Entry (G : Type) where
  geom : G
  obj : Option PyObj
deriving DecidableEq

/-- The `HashMap<usize, Vec<usize>>` reverse map, modelled as an association
list with (by construction) unique keys. -/
abbrev RevMap := List (ℕ × List ℕ)

/-- `HashMap::get`. -/
def mapFind (m : RevMap) (k : ℕ) : Option (List ℕ) :=
  (m.find? (fun kv => kv.1 == k)).map (·.2)

/-- `HashMap::remove` (dropping the association for `k`). -/
def mapErase (m : RevMap) (k : ℕ) : RevMap :=
  m.filter (fun kv => kv.1 != k)

/-- Replace the value stored at an existing key. -/
def mapSet (m : RevMap) (k : ℕ) (v : List ℕ) : RevMap :=
  m.map (fun kv => if kv.1 = k then (k, v) else kv)

/-- `ObjStore::remove_rev_mapping`: drop `id` from the bucket of `ptr`,
removing the bucket when it becomes empty. -/
def remove_rev_mapping (m : RevMap) (ptr id_ : ℕ) : RevMap :=
  match mapFind m ptr with
  | none => m
  | some v =>
    let v' := v.filter (fun x => x ≠ id_)
    if v'.isEmpty then mapErase m ptr else mapSet m ptr v'

/-- `ObjStore::add_rev_mapping`: append `id` to the bucket of `ptr` unless it
is already present (buckets stay duplicate-free). -/
def add_rev_mapping (m : RevMap) (ptr id_ : ℕ) : RevMap :=
  match mapFind m ptr with
  | none => m ++ [(ptr, [id_])]
  | some v => if v.contains id_ then m else mapSet m ptr (v ++ [id_])

/-- `ObjStore<G>` from `obj_store.rs`.  The dense array is a list of optional
entries (`none` = hole); `free` is the LIFO free list (`Vec` top = list end). -/
structure ObjStore (G : Type) where
  entries : List (Option (Entry G))
  free : List ℕ
  obj_to_ids : RevMap
  live_len : ℕ
deriving DecidableEq

/-- `ObjStore::new`. -/
def ObjStore.new (G : Type) : ObjStore G :=
  { entries := [], free := [], obj_to_ids := [], live_len := 0 }

/-- `ObjStore::dense_len`. -/
def ObjStore.dense_len (s : ObjStore G) : ℕ := s.entries.length

/-- `ObjStore::contains_id`. -/
def ObjStore.contains_id (s : ObjStore G) (id : ℕ) : Bool :=
  match u64_to_usize id with
  | .error _ => false
  | .ok i => decide (i < s.entries.length) && (s.entries.getD i none).isSome

/-- `ObjStore::contains_obj`. -/
def ObjStore.contains_obj (s : ObjStore G) (obj : PyObj) : Bool :=
  (mapFind s.obj_to_ids obj).isSome

/-- `ObjStore::alloc_id`: pop the most recently freed index, else the tail
index.  Returns the id together with the store (the free list may shrink). -/
def ObjStore.alloc_id (s : ObjStore G) : ℕ × ObjStore G :=
  match s.free.getLast? with
  | some id => (id, { s with free := s.free.dropLast })
  | none => (s.entries.length, s)

/-- `ObjStore::insert_at`. -/
def ObjStore.insert_at (s : ObjStore G) (id : ℕ) (geom : G) (obj : Option PyObj)
    (handle_out_of_order : Bool) : StoreResult (ObjStore G) :=
  match u64_to_usize id with
  | .error e => .error e
  | .ok id_ =>
    if id_ > s.entries.length ∧ handle_out_of_order = false then
      .error .OutOfOrderId
    else
      let entries :=
        if id_ > s.entries.length then
          s.entries ++ List.replicate (id_ - s.entries.length) none
        else s.entries
      if id_ = entries.length then
        let m := match obj with
          | some ptr => add_rev_mapping s.obj_to_ids ptr id_
          | none => s.obj_to_ids
        .ok { entries := entries ++ [some ⟨geom, obj⟩], free := s.free,
              obj_to_ids := m, live_len := s.live_len + 1 }
      else
        let was_hole := (entries.getD id_ none).isNone
        let m1 := match entries.getD id_ none with
          | some old =>
            match old.obj with
            | some ptr => remove_rev_mapping s.obj_to_ids ptr id_
            | none => s.obj_to_ids
          | none => s.obj_to_ids
        let m2 := match obj with
          | some ptr => add_rev_mapping m1 ptr id_
          | none => m1
        .ok { entries := entries.set id_ (some ⟨geom, obj⟩), free := s.free,
              obj_to_ids := m2,
              live_len := if was_hole then s.live_len + 1 else s.live_len }

/-- `ObjStore::insert`: auto-allocate, then place (the `insert_at` result is
discarded with `let _ = ...` in the source). -/
def ObjStore.insert (s : ObjStore G) (geom : G) (obj : Option PyObj) :
    ℕ × ObjStore G :=
  let (id, s1) := s.alloc_id
  match s1.insert_at id geom obj false with
  | .ok s2 => (id, s2)
  | .error _ => (id, s1)

/-- `ObjStore::get`. -/
def ObjStore.get (s : ObjStore G) (id : ℕ) : Option (Entry G) :=
  match u64_to_usize id with
  | .error _ => none
  | .ok i => s.entries.getD i none

/-- `ObjStore::get_obj`. -/
def ObjStore.get_obj (s : ObjStore G) (id : ℕ) : Option PyObj :=
  (s.get id).bind (fun e => e.obj)

/-- `ObjStore::pop_id`: remove the occupied entry at `id`, releasing its
reverse mapping and pushing the index onto the free list. -/
def ObjStore.pop_id (s : ObjStore G) (id : ℕ) : Option (Entry G) × ObjStore G :=
  match u64_to_usize id with
  | .error _ => (none, s)
  | .ok i =>
    if i ≥ s.entries.length then (none, s)
    else
      match s.entries.getD i none with
      | none => (none, s)
      | some old =>
        let m := match old.obj with
          | some ptr => remove_rev_mapping s.obj_to_ids ptr i
          | none => s.obj_to_ids
        (some old,
          { entries := s.entries.set i none, free := s.free ++ [i],
            obj_to_ids := m, live_len := s.live_len - 1 })

/-- `ObjStore::min_id_for_obj`. -/
def ObjStore.min_id_for_obj (s : ObjStore G) (obj : PyObj) : Option ℕ :=
  (mapFind s.obj_to_ids obj).bind (fun ids => ids.min?)

/-- `ObjStore::ids_for_obj_sorted`. -/
def ObjStore.ids_for_obj_sorted (s : ObjStore G) (obj : PyObj) : List ℕ :=
  match mapFind s.obj_to_ids obj with
  | none => []
  | some ids => ids.mergeSort (fun a b => a ≤ b)

/-- The removal loop of `ObjStore::pop_by_object_all` (the reverse-map bucket
was already removed as a whole before the loop runs). -/
def popLoop : List ℕ → ObjStore G → List (ℕ × Entry G) × ObjStore G
  | [], s => ([], s)
  | i :: rest, s =>
    if i < s.entries.length then
      match s.entries.getD i none with
      | some e =>
        let s' : ObjStore G :=
          { entries := s.entries.set i none, free := s.free ++ [i],
            obj_to_ids := s.obj_to_ids, live_len := s.live_len - 1 }
        let (out, s'') := popLoop rest s'
        ((i, e) :: out, s'')
      | none => popLoop rest s
    else popLoop rest s

/-- `ObjStore::pop_by_object_all`: release the whole reverse-map bucket, then
remove every id it held, ascending. -/
def ObjStore.pop_by_object_all (s : ObjStore G) (obj : PyObj) :
    List (ℕ × Entry G) × ObjStore G :=
  match mapFind s.obj_to_ids obj with
  | none => ([], s)
  | some ids =>
    popLoop (ids.mergeSort (fun a b => a ≤ b))
      { s with obj_to_ids := mapErase s.obj_to_ids obj }

/-- `ObjStore::pop_by_object_min`. -/
def ObjStore.pop_by_object_min (s : ObjStore G) (obj : PyObj) :
    Option ((ℕ × Entry G) × ObjStore G) :=
  match s.min_id_for_obj obj with
  | none => none
  | some id =>
    match s.pop_id id with
    | (none, _) => none
    | (some e, s') => some ((id, e), s')

/-- `ObjStore::gather_objects_ref`: ordered lookup of payload handles.  Note
the source checks `id_ >= storage_len` before it ever consults
`strict_no_holes`, so an out-of-range id errors in both modes. -/
def gather_objects_ref (s : ObjStore G) (ids : List ℕ) (strict_no_holes : Bool) :
    StoreResult (List (Option PyObj)) :=
  match ids with
  | [] => .ok []
  | id :: rest =>
    match u64_to_usize id with
    | .error e => .error e
    | .ok i =>
      if i ≥ s.entries.length then .error .IdOutOfBounds
      else
        match s.entries.getD i none with
        | some e =>
          if strict_no_holes ∧ e.obj = none then .error .IdOutOfBounds
          else
            match gather_objects_ref s rest strict_no_holes with
            | .error err => .error err
            | .ok out => .ok (e.obj :: out)
        | none =>
          if strict_no_holes then .error .IdOutOfBounds
          else
            match gather_objects_ref s rest strict_no_holes with
            | .error err => .error err
            | .ok out => .ok (none :: out)

/-- `ObjStore::bulk_obj_ptrs`: like `gather_objects_ref` but producing raw
pointers; `none` in the output stands for the `Py_None()` pointer pushed by
the source in lenient mode. -/
def bulk_obj_ptrs (s : ObjStore G) (ids : List ℕ) (strict_no_holes : Bool) :
    StoreResult (List (Option PyObj)) :=
  match ids with
  | [] => .ok []
  | id :: rest =>
    match u64_to_usize id with
    | .error e => .error e
    | .ok i =>
      if i ≥ s.entries.length then .error .IdOutOfBounds
      else
        match s.entries.getD i none with
        | some e =>
          match e.obj with
          | some o =>
            match bulk_obj_ptrs s rest strict_no_holes with
            | .error err => .error err
            | .ok out => .ok (some o :: out)
          | none =>
            if strict_no_holes then .error .IdOutOfBounds
            else
              match bulk_obj_ptrs s rest strict_no_holes with
              | .error err => .error err
              | .ok out => .ok (none :: out)
        | none =>
          if strict_no_holes then .error .IdOutOfBounds
          else
            match bulk_obj_ptrs s rest strict_no_holes with
            | .error err => .error err
            | .ok out => .ok (none :: out)

/-- Stores reachable from `ObjStore::new` by the public mutating operations. -/
inductive StoreReachable : ObjStore G → Prop
  | new : StoreReachable (ObjStore.new G)
  | insert_at (s : ObjStore G) (id : ℕ) (g : G) (ob : Option PyObj) (ag : Bool)
      (s' : ObjStore G) :
      StoreReachable s → s.insert_at id g ob ag = .ok s' → StoreReachable s'
  | ins (s : ObjStore G) (g : G) (ob : Option PyObj) :
      StoreReachable s → StoreReachable (s.insert g ob).2
  | pop (s : ObjStore G) (id : ℕ) :
      StoreReachable s → StoreReachable (s.pop_id id).2
  | popAll (s : ObjStore G) (ob : PyObj) :
      StoreReachable s → StoreReachable (s.pop_by_object_all ob).2

/-- Invariant of a child array under a parent boundary `b`: each child is
well-formed and carries its quadrant rectangle. -/
def KidsWF (b : Rect) (kids : Kids) : Prop :=
  ∀ i, i < 4 → WF (getChild i kids) ∧ (getChild i kids).boundary = quadRect b i

/-- The C7 invariant for a child array. -/
def KidsOLH (kids : Kids) : Prop :=
  ∀ i, i < 4 → onlyLeavesHoldItems (getChild i kids)

/-- Full specification of one completed `insert` call at a given fuel: the
boundary is unchanged, well-formedness and the only-leaves-hold-items
invariant are preserved, a contained point is accepted and added (exactly
once), and an uncontained point is rejected with the tree untouched. -/
def InsertSpec (f : ℕ) : Prop :=
  ∀ t it t' r, insertFuel f t it = some (t', r) → WF t →
    t'.boundary = t.boundary ∧ WF t' ∧
    (onlyLeavesHoldItems t → onlyLeavesHoldItems t') ∧
    (t.boundary.contains it.point = true →
      r = true ∧ itemsMS t' = it ::ₘ itemsMS t) ∧
    (t.boundary.contains it.point = false → r = false ∧ t' = t)

/-- Invariant of reachable stores: every free-list index is below the dense
length. -/
def freeBounded (s : ObjStore G) : Prop :=
  ∀ i ∈ s.free, i < s.entries.length

/-! ### Geometry lemmas -/

theorem contains_iff (r : Rect) (p : Point) :
    r.contains p = true ↔
      r.min_x ≤ p.x ∧ p.x < r.max_x ∧ r.min_y ≤ p.y ∧ p.y < r.max_y := by
  simp [Rect.contains, ge_iff_le, and_assoc]

theorem intersects_iff (a b : Rect) :
    a.intersects b = true ↔
      a.min_x < b.max_x ∧ b.min_x < a.max_x ∧ a.min_y < b.max_y ∧ b.min_y < a.max_y := by
  simp [Rect.intersects, gt_iff_lt, and_assoc]

/-- A point lying (half-open) in two rectangles forces the strict-overlap
test between them to succeed: pruning cannot hide a matching item. -/
theorem intersects_of_mem_mem {a b : Rect} {p : Point}
    (ha : a.contains p = true) (hb : b.contains p = true) :
    a.intersects b = true := by
  rw [contains_iff] at ha hb
  rw [intersects_iff]
  obtain ⟨h1, h2, h3, h4⟩ := ha
  obtain ⟨g1, g2, g3, g4⟩ := hb
  exact ⟨lt_of_le_of_lt h1 g2, lt_of_le_of_lt g1 h2,
    lt_of_le_of_lt h3 g4, lt_of_le_of_lt g3 h4⟩

theorem child_index_eq (b : Rect) (p : Point) :
    child_index_for_point b p =
      (if p.y ≥ (1/2 : ℚ) * (b.min_y + b.max_y) then (1:ℕ) else 0) <<< 1 |||
      (if p.x ≥ (1/2 : ℚ) * (b.min_x + b.max_x) then (1:ℕ) else 0) := rfl

theorem child_index_lt_four (b : Rect) (p : Point) :
    child_index_for_point b p < 4 := by
  rw [child_index_eq]
  split_ifs <;> decide

/-- The quadrant selected by the midpoint bit comparison contains the point
whenever the parent boundary does. -/
theorem quad_contains_child_index {b : Rect} {p : Point}
    (h : b.contains p = true) :
    (quadRect b (child_index_for_point b p)).contains p = true := by
  rw [contains_iff] at h
  obtain ⟨h1, h2, h3, h4⟩ := h
  rw [child_index_eq]
  by_cases hx : p.x ≥ (1/2 : ℚ) * (b.min_x + b.max_x) <;>
    by_cases hy : p.y ≥ (1/2 : ℚ) * (b.min_y + b.max_y)
  · rw [if_pos hx, if_pos hy, show ((1:ℕ) <<< 1 ||| 1) = 3 from rfl]
    rw [show quadRect b 3 = ⟨(1/2 : ℚ) * (b.min_x + b.max_x),
      (1/2 : ℚ) * (b.min_y + b.max_y), b.max_x, b.max_y⟩ from rfl, contains_iff]
    exact ⟨hx, h2, hy, h4⟩
  · rw [if_pos hx, if_neg hy, show ((0:ℕ) <<< 1 ||| 1) = 1 from rfl]
    rw [show quadRect b 1 = ⟨(1/2 : ℚ) * (b.min_x + b.max_x), b.min_y,
      b.max_x, (1/2 : ℚ) * (b.min_y + b.max_y)⟩ from rfl, contains_iff]
    exact ⟨hx, h2, h3, lt_of_not_ge hy⟩
  · rw [if_neg hx, if_pos hy, show ((1:ℕ) <<< 1 ||| 0) = 2 from rfl]
    rw [show quadRect b 2 = ⟨b.min_x, (1/2 : ℚ) * (b.min_y + b.max_y),
      (1/2 : ℚ) * (b.min_x + b.max_x), b.max_y⟩ from rfl, contains_iff]
    exact ⟨h1, lt_of_not_ge hx, hy, h4⟩
  · rw [if_neg hx, if_neg hy, show ((0:ℕ) <<< 1 ||| 0) = 0 from rfl]
    rw [show quadRect b 0 = ⟨b.min_x, b.min_y, (1/2 : ℚ) * (b.min_x + b.max_x),
      (1/2 : ℚ) * (b.min_y + b.max_y)⟩ from rfl, contains_iff]
    exact ⟨h1, lt_of_not_ge hx, h3, lt_of_not_ge hy⟩

/-- No point lies in two distinct quadrants: containment in quadrant `i`
pins down the midpoint comparison bits. -/
theorem quad_contains_index_unique {b : Rect} {p : Point} {i : ℕ} (hi : i < 4)
    (h : (quadRect b i).contains p = true) : i = child_index_for_point b p := by
  rw [child_index_eq]
  interval_cases i <;>
    (rw [contains_iff] at h; obtain ⟨h1, h2, h3, h4⟩ := h) <;>
    simp only [quadRect] at h1 h2 h3 h4
  · rw [if_neg (by simp only [ge_iff_le, not_le]; exact h4),
      if_neg (by simp only [ge_iff_le, not_le]; exact h2)]
    rfl
  · rw [if_neg (by simp only [ge_iff_le, not_le]; exact h4),
      if_pos (by simpa [ge_iff_le] using h1)]
    rfl
  · rw [if_pos (by simpa [ge_iff_le] using h3),
      if_neg (by simp only [ge_iff_le, not_le]; exact h2)]
    rfl
  · rw [if_pos (by simpa [ge_iff_le] using h3),
      if_pos (by simpa [ge_iff_le] using h1)]
    rfl

/-! ### Child-array helpers -/

theorem getChild_setChild_self {i : ℕ} (hi : i < 4) (kids : Kids) (k : QuadTree) :
    getChild i (setChild i kids k) = k := by
  obtain ⟨c0, c1, c2, c3⟩ := kids
  interval_cases i <;> rfl

theorem getChild_setChild_other {i j : ℕ} (hi : i < 4) (hj : j < 4) (hne : i ≠ j)
    (kids : Kids) (k : QuadTree) :
    getChild i (setChild j kids k) = getChild i kids := by
  obtain ⟨c0, c1, c2, c3⟩ := kids
  interval_cases i <;> interval_cases j <;> first | rfl | exact absurd rfl hne

theorem msSum_setChild_cons {i : ℕ} (hi : i < 4) (kids : Kids) (k : QuadTree)
    (it : Item) (h : itemsMS k = it ::ₘ itemsMS (getChild i kids)) :
    msSum (setChild i kids k) = it ::ₘ msSum kids := by
  obtain ⟨c0, c1, c2, c3⟩ := kids
  interval_cases i <;>
    simp only [msSum, setChild, getChild] at h ⊢ <;>
    simp [h, Multiset.cons_add, Multiset.add_cons]

theorem KidsWF_setChild {b : Rect} {i : ℕ} (hi : i < 4) {kids : Kids}
    {k : QuadTree} (hk : KidsWF b kids) (hWF : WF k)
    (hb : k.boundary = quadRect b i) : KidsWF b (setChild i kids k) := by
  intro j hj
  by_cases hij : j = i
  · subst hij
    rw [getChild_setChild_self hj]
    exact ⟨hWF, hb⟩
  · rw [getChild_setChild_other hj hi hij]
    exact hk j hj

theorem KidsOLH_setChild {i : ℕ} (hi : i < 4) {kids : Kids} {k : QuadTree}
    (hk : KidsOLH kids) (hol : onlyLeavesHoldItems k) :
    KidsOLH (setChild i kids k) := by
  intro j hj
  by_cases hij : j = i
  · subst hij
    rw [getChild_setChild_self hj]
    exact hol
  · rw [getChild_setChild_other hj hi hij]
    exact hk j hj

theorem KidsWF_freshKids (b : Rect) (cap : ℕ) : KidsWF b (freshKids b cap) := by
  intro i hi
  interval_cases i <;>
    exact ⟨fun it hit => absurd hit (List.not_mem_nil it), rfl⟩

theorem KidsOLH_freshKids (b : Rect) (cap : ℕ) : KidsOLH (freshKids b cap) := by
  intro i hi
  interval_cases i <;> trivial

theorem msSum_freshKids (b : Rect) (cap : ℕ) : msSum (freshKids b cap) = 0 := rfl

theorem itemsMS_leaf (b : Rect) (items : List Item) (cap : ℕ) :
    itemsMS (.leaf b items cap) = (items : Multiset Item) := rfl

theorem itemsMS_nodeOfKids (b : Rect) (items : List Item) (cap : ℕ) (kids : Kids) :
    itemsMS (nodeOfKids b items cap kids) = (items : Multiset Item) + msSum kids := by
  obtain ⟨c0, c1, c2, c3⟩ := kids
  simp only [nodeOfKids, itemsMS, allItems, msSum, getChild]
  rw [← Multiset.coe_add, ← Multiset.coe_add, ← Multiset.coe_add,
    ← Multiset.coe_add]
  simp [add_assoc]

theorem boundary_nodeOfKids (b : Rect) (items : List Item) (cap : ℕ) (kids : Kids) :
    (nodeOfKids b items cap kids).boundary = b := rfl

theorem WF_nodeOfKids {b : Rect} {items : List Item} {cap : ℕ} {kids : Kids}
    (hmem : ∀ it ∈ itemsMS (nodeOfKids b items cap kids), b.contains it.point = true)
    (hkids : KidsWF b kids) : WF (nodeOfKids b items cap kids) := by
  obtain ⟨c0, c1, c2, c3⟩ := kids
  refine ⟨?_, (hkids 0 (by decide)).2, (hkids 1 (by decide)).2,
    (hkids 2 (by decide)).2, (hkids 3 (by decide)).2,
    (hkids 0 (by decide)).1, (hkids 1 (by decide)).1, (hkids 2 (by decide)).1,
    (hkids 3 (by decide)).1⟩
  intro it hit
  exact hmem it (by simpa [itemsMS, nodeOfKids, allItems] using hit)

theorem OLH_nodeOfKids {b : Rect} {cap : ℕ} {kids : Kids}
    (hkids : KidsOLH kids) : onlyLeavesHoldItems (nodeOfKids b [] cap kids) := by
  obtain ⟨c0, c1, c2, c3⟩ := kids
  exact ⟨rfl, hkids 0 (by decide), hkids 1 (by decide), hkids 2 (by decide),
    hkids 3 (by decide)⟩

theorem WF_node_kids {b : Rect} {items : List Item} {cap : ℕ}
    {c0 c1 c2 c3 : QuadTree} (h : WF (.node b items cap c0 c1 c2 c3)) :
    KidsWF b (c0, c1, c2, c3) := by
  obtain ⟨_, hb0, hb1, hb2, hb3, hw0, hw1, hw2, hw3⟩ := h
  intro i hi
  interval_cases i <;> exact ⟨by assumption, by assumption⟩

theorem OLH_node_kids {b : Rect} {items : List Item} {cap : ℕ}
    {c0 c1 c2 c3 : QuadTree} (h : onlyLeavesHoldItems (.node b items cap c0 c1 c2 c3)) :
    items = [] ∧ KidsOLH (c0, c1, c2, c3) := by
  obtain ⟨hnil, h0, h1, h2, h3⟩ := h
  refine ⟨hnil, ?_⟩
  intro i hi
  interval_cases i <;> assumption

theorem WF_mem_ms {t : QuadTree} (h : WF t) :
    ∀ x ∈ itemsMS t, t.boundary.contains x.point = true := by
  cases t with
  | leaf b items cap =>
    intro x hx
    exact h x (by simpa [itemsMS, allItems] using hx)
  | node b items cap c0 c1 c2 c3 =>
    intro x hx
    exact h.1 x (by simpa [itemsMS, allItems] using hx)

/-! ### The split drain loop -/

theorem splitItemsGo_spec {f : ℕ} (hf : InsertSpec f) (b : Rect) :
    ∀ (items : List Item) (kids kids' : Kids),
      splitItemsGo (insertFuel f) b items kids = some kids' →
      (∀ it ∈ items, b.contains it.point = true) →
      KidsWF b kids → KidsOLH kids →
      KidsWF b kids' ∧ KidsOLH kids' ∧
        msSum kids' = msSum kids + (items : Multiset Item) := by
  intro items
  induction items with
  | nil =>
    intro kids kids' h hc hwf holh
    simp only [splitItemsGo, Option.some.injEq] at h
    subst h
    exact ⟨hwf, holh, by simp⟩
  | cons it rest ih =>
    intro kids kids' h hc hwf holh
    simp only [splitItemsGo] at h
    have hlt : child_index_for_point b it.point < 4 := child_index_lt_four b it.point
    cases hins : insertFuel f (getChild (child_index_for_point b it.point) kids) it with
    | none => rw [hins] at h; cases h
    | some p =>
      obtain ⟨k, r⟩ := p
      rw [hins] at h
      have hcit : b.contains it.point = true := hc it (List.mem_cons_self _ _)
      have hkid := hwf _ hlt
      have hcontains :
          (getChild (child_index_for_point b it.point) kids).boundary.contains it.point
            = true := by
        rw [hkid.2]
        exact quad_contains_child_index hcit
      obtain ⟨hbnd, hWFk, holk, htrue, hfalse⟩ := hf _ _ _ _ hins hkid.1
      obtain ⟨hr, hms⟩ := htrue hcontains
      have hkids1WF : KidsWF b (setChild (child_index_for_point b it.point) kids k) :=
        KidsWF_setChild hlt hwf hWFk (by rw [hbnd]; exact hkid.2)
      have hkids1OLH : KidsOLH (setChild (child_index_for_point b it.point) kids k) :=
        KidsOLH_setChild hlt holh (holk (holh _ hlt))
      obtain ⟨hwf', holh', hms'⟩ :=
        ih _ _ h (fun x hx => hc x (List.mem_cons_of_mem _ hx)) hkids1WF hkids1OLH
      refine ⟨hwf', holh', ?_⟩
      rw [hms', msSum_setChild_cons hlt kids k it hms, ← Multiset.cons_coe,
        Multiset.add_cons, Multiset.cons_add]

/-! ### The master insert specification -/

theorem insertSpec_all : ∀ f, InsertSpec f := by
  intro f
  induction f with
  | zero =>
    intro t it t' r h
    simp [insertFuel] at h
  | succ f ih =>
    intro t it t' r h hwf
    simp only [insertFuel] at h
    by_cases hc : t.boundary.contains it.point = false
    · rw [if_pos hc] at h
      simp only [Option.some.injEq, Prod.mk.injEq] at h
      obtain ⟨ht', hr⟩ := h
      subst ht'
      subst hr
      refine ⟨rfl, hwf, fun holt => holt, ?_, fun _ => ⟨rfl, rfl⟩⟩
      intro htrue
      rw [htrue] at hc
      cases hc
    · rw [if_neg hc] at h
      have hc' : t.boundary.contains it.point = true := by
        cases hb : t.boundary.contains it.point
        · exact absurd hb hc
        · rfl
      cases t with
      | leaf b items cap =>
        simp only [] at h
        by_cases hroom : items.length < cap
        · rw [if_pos hroom] at h
          simp only [Option.some.injEq, Prod.mk.injEq] at h
          obtain ⟨ht', hr⟩ := h
          subst ht'
          subst hr
          refine ⟨rfl, ?_, fun _ => trivial, fun _ => ⟨rfl, ?_⟩, fun hfalse => ?_⟩
          · intro x hx
            rcases List.mem_append.1 hx with hx | hx
            · exact hwf x hx
            · rw [List.mem_singleton.1 hx]
              exact hc'
          · rw [itemsMS_leaf, itemsMS_leaf, ← Multiset.coe_add,
              Multiset.coe_singleton, add_comm, Multiset.singleton_add]
          · rw [hc'] at hfalse
            cases hfalse
        · rw [if_neg hroom] at h
          cases hsplit : splitItemsGo (insertFuel f) b items (freshKids b cap) with
          | none => rw [hsplit] at h; cases h
          | some kids =>
            rw [hsplit] at h
            simp only [] at h
            cases hins : insertFuel f
                (getChild (child_index_for_point b it.point) kids) it with
            | none => rw [hins] at h; cases h
            | some p =>
              obtain ⟨k, r2⟩ := p
              rw [hins] at h
              simp only [Option.some.injEq, Prod.mk.injEq] at h
              obtain ⟨ht', hr⟩ := h
              subst ht'
              subst hr
              have hlt : child_index_for_point b it.point < 4 :=
                child_index_lt_four b it.point
              obtain ⟨hkidsWF, hkidsOLH, hmsk⟩ :=
                splitItemsGo_spec ih b items (freshKids b cap) kids hsplit hwf
                  (KidsWF_freshKids b cap) (KidsOLH_freshKids b cap)
              rw [msSum_freshKids, zero_add] at hmsk
              have hkid := hkidsWF _ hlt
              have hcontains :
                  (getChild (child_index_for_point b it.point) kids).boundary.contains
                    it.point = true := by
                rw [hkid.2]
                exact quad_contains_child_index hc'
              obtain ⟨hbnd, hWFk, holk, htrue, _⟩ := ih _ _ _ _ hins hkid.1
              obtain ⟨hr2, hmsins⟩ := htrue hcontains
              have hmst' :
                  itemsMS (nodeOfKids b [] cap
                      (setChild (child_index_for_point b it.point) kids k)) =
                    it ::ₘ (items : Multiset Item) := by
                rw [itemsMS_nodeOfKids, msSum_setChild_cons hlt kids k it hmsins, hmsk]
                simp
              refine ⟨rfl, ?_, fun _ => ?_, fun _ => ⟨hr2, ?_⟩, fun hfalse => ?_⟩
              · refine WF_nodeOfKids ?_ ?_
                · intro x hx
                  rw [hmst'] at hx
                  rcases Multiset.mem_cons.1 hx with hx | hx
                  · rw [hx]; exact hc'
                  · exact hwf x (by simpa using hx)
                · exact KidsWF_setChild hlt hkidsWF hWFk (by rw [hbnd]; exact hkid.2)
              · exact OLH_nodeOfKids
                  (KidsOLH_setChild hlt hkidsOLH (holk (hkidsOLH _ hlt)))
              · rw [hmst', itemsMS_leaf]
              · rw [hc'] at hfalse
                cases hfalse
      | node b items cap c0 c1 c2 c3 =>
        simp only [] at h
        cases hins : insertFuel f
            (getChild (child_index_for_point b it.point) (c0, c1, c2, c3)) it with
        | none => rw [hins] at h; cases h
        | some p =>
          obtain ⟨k, r2⟩ := p
          rw [hins] at h
          simp only [Option.some.injEq, Prod.mk.injEq] at h
          obtain ⟨ht', hr⟩ := h
          subst ht'
          subst hr
          have hlt : child_index_for_point b it.point < 4 :=
            child_index_lt_four b it.point
          have hkidsWF : KidsWF b (c0, c1, c2, c3) := WF_node_kids hwf
          have hkid := hkidsWF _ hlt
          have hcontains :
              (getChild (child_index_for_point b it.point) (c0, c1, c2, c3)).boundary.contains
                it.point = true := by
            rw [hkid.2]
            exact quad_contains_child_index hc'
          obtain ⟨hbnd, hWFk, holk, htrue, _⟩ := ih _ _ _ _ hins hkid.1
          obtain ⟨hr2, hmsins⟩ := htrue hcontains
          have hmst :
              itemsMS (.node b items cap c0 c1 c2 c3) =
                (items : Multiset Item) + msSum (c0, c1, c2, c3) :=
            itemsMS_nodeOfKids b items cap (c0, c1, c2, c3)
          have hmst' :
              itemsMS (nodeOfKids b items cap
                  (setChild (child_index_for_point b it.point) (c0, c1, c2, c3) k)) =
                it ::ₘ itemsMS (.node b items cap c0 c1 c2 c3) := by
            rw [itemsMS_nodeOfKids,
              msSum_setChild_cons hlt (c0, c1, c2, c3) k it hmsins, hmst,
              Multiset.add_cons]
          refine ⟨rfl, ?_, fun holt => ?_, fun _ => ⟨hr2, hmst'⟩, fun hfalse => ?_⟩
          · refine WF_nodeOfKids ?_ ?_
            · intro x hx
              rw [hmst'] at hx
              rcases Multiset.mem_cons.1 hx with hx | hx
              · rw [hx]; exact hc'
              · exact WF_mem_ms hwf x hx
            · exact KidsWF_setChild hlt hkidsWF hWFk (by rw [hbnd]; exact hkid.2)
          · obtain ⟨hnil, hkolh⟩ := OLH_node_kids holt
            subst hnil
            exact OLH_nodeOfKids (KidsOLH_setChild hlt hkolh (holk (hkolh _ hlt)))
          · rw [hc'] at hfalse
            cases hfalse

/-! ### Invariants of reachable trees -/

theorem reachable_inv {t : QuadTree} (h : Reachable t) :
    WF t ∧ onlyLeavesHoldItems t := by
  induction h with
  | new b cap =>
    exact ⟨fun it hit => absurd hit (List.not_mem_nil it), trivial⟩
  | ins t it f t' r _ hins ih =>
    obtain ⟨hwf, holh⟩ := ih
    obtain ⟨_, hwf', holh', _, _⟩ := insertSpec_all f t it t' r hins hwf
    exact ⟨hwf', holh' holh⟩

/-! ### Query correctness -/

theorem query_into_spec (range : Rect) :
    ∀ (t : QuadTree), WF t → ∀ (out : List Item),
      query_into t range out =
        out ++ (allItems t).filter (fun it => range.contains it.point) := by
  intro t
  induction t with
  | leaf b items cap =>
    intro hwf out
    simp only [query_into, allItems]
    by_cases hint : Rect.intersects b range = false
    · rw [if_pos hint]
      have hfil : items.filter (fun it => range.contains it.point) = [] := by
        rw [List.filter_eq_nil_iff]
        intro a ha hcont
        have htr := intersects_of_mem_mem (hwf a ha) hcont
        simp [htr] at hint
      rw [hfil, List.append_nil]
    · rw [if_neg hint]
  | node b items cap c0 c1 c2 c3 ih0 ih1 ih2 ih3 =>
    intro hwf out
    obtain ⟨hmem, hb0, hb1, hb2, hb3, hw0, hw1, hw2, hw3⟩ := hwf
    simp only [query_into, allItems]
    by_cases hint : Rect.intersects b range = false
    · rw [if_pos hint]
      have hfil : (items ++ allItems c0 ++ allItems c1 ++ allItems c2 ++
          allItems c3).filter (fun it => range.contains it.point) = [] := by
        rw [List.filter_eq_nil_iff]
        intro a ha hcont
        have htr := intersects_of_mem_mem (hmem a ha) hcont
        simp [htr] at hint
      rw [hfil, List.append_nil]
    · rw [if_neg hint]
      rw [ih0 hw0, ih1 hw1, ih2 hw2, ih3 hw3]
      simp [List.filter_append, List.append_assoc]

/-! ### Divergence of insert on coincident overflow -/

theorem insert_coincident_aux :
    ∀ (fuel : ℕ) (c : ℚ), 0 < c → ∀ (i j : ℕ),
      insertFuel fuel (QuadTree.leaf ⟨0, 0, c, c⟩ [⟨i, ⟨0, 0⟩⟩] 1) ⟨j, ⟨0, 0⟩⟩
        = none := by
  intro fuel
  induction fuel with
  | zero => intro c hc i j; rfl
  | succ f ih =>
    intro c hc i j
    have h2 : (0:ℚ) < 1/2 * (0 + c) := by rw [zero_add]; linarith
    have hcont : Rect.contains ⟨0, 0, c, c⟩ ⟨0, 0⟩ = true := by
      rw [contains_iff]
      exact ⟨le_refl _, hc, le_refl _, hc⟩
    have hcont2 :
        Rect.contains ⟨0, 0, 1/2 * (0 + c), 1/2 * (0 + c)⟩ ⟨0, 0⟩ = true := by
      rw [contains_iff]
      exact ⟨le_refl _, h2, le_refl _, h2⟩
    have hidx : child_index_for_point ⟨0, 0, c, c⟩ ⟨0, 0⟩ = 0 := by
      rw [child_index_eq,
        if_neg (by simp only [ge_iff_le, not_le]; exact h2),
        show ((0:ℕ) <<< 1 ||| 0) = 0 from rfl]
    rw [insertFuel.eq_def]
    dsimp only []
    rw [if_neg (by simp [QuadTree.boundary, hcont])]
    rw [if_neg (by simp)]
    rw [hidx]
    cases f with
    | zero => rfl
    | succ g =>
      have hstep :
          insertFuel (g+1)
            (QuadTree.leaf ⟨0, 0, 1/2 * (0 + c), 1/2 * (0 + c)⟩ [] 1)
            ⟨i, ⟨0, 0⟩⟩ =
            some (QuadTree.leaf ⟨0, 0, 1/2 * (0 + c), 1/2 * (0 + c)⟩
              [⟨i, ⟨0, 0⟩⟩] 1, true) := by
        rw [insertFuel.eq_def]
        dsimp only []
        rw [if_neg (by
          simp only [QuadTree.boundary, hcont2, Bool.true_eq_false,
            not_false_eq_true])]
        rw [if_pos (by simp)]
        rfl
      have hsplit :
          splitItemsGo (insertFuel (g+1)) ⟨0, 0, c, c⟩ [⟨i, ⟨0, 0⟩⟩]
            (freshKids ⟨0, 0, c, c⟩ 1) =
            some (setChild 0 (freshKids ⟨0, 0, c, c⟩ 1)
              (QuadTree.leaf ⟨0, 0, 1/2 * (0 + c), 1/2 * (0 + c)⟩
                [⟨i, ⟨0, 0⟩⟩] 1)) := by
        rw [splitItemsGo.eq_def]
        dsimp only []
        rw [hidx]
        rw [show getChild 0 (freshKids ⟨0, 0, c, c⟩ 1) =
          QuadTree.leaf ⟨0, 0, 1/2 * (0 + c), 1/2 * (0 + c)⟩ [] 1 from rfl]
        rw [hstep]
        rfl
      rw [hsplit]
      dsimp only []
      rw [show getChild 0 (setChild 0 (freshKids ⟨0, 0, c, c⟩ 1)
          (QuadTree.leaf ⟨0, 0, 1/2 * (0 + c), 1/2 * (0 + c)⟩
            [⟨i, ⟨0, 0⟩⟩] 1)) =
        QuadTree.leaf ⟨0, 0, 1/2 * (0 + c), 1/2 * (0 + c)⟩
          [⟨i, ⟨0, 0⟩⟩] 1 from rfl]
      rw [ih (1/2 * (0 + c)) h2 i j]

/-! ### Quadtree claims -/

/-- C1: for every tree reachable by a sequence of inserts and every rectangle
`range`, `query range` returns exactly the currently stored items whose point
lies in `range` under half-open containment: pruning subtrees that fail the
strict-overlap test never omits a qualifying item and never adds a
non-qualifying one.  The result is literally the filter of the stored items
(in traversal order), hence in particular the correct set. -/
theorem c1_query_exact {t : QuadTree} (ht : Reachable t) (range : Rect) :
    query t range = (allItems t).filter (fun it => range.contains it.point) := by
  have hwf := (reachable_inv ht).1
  rw [query, query_into_spec range t hwf [], List.nil_append]

theorem c1_query_exact_witness :
    query (QuadTree.leaf ⟨0, 0, 4, 4⟩ [⟨5, ⟨1, 1⟩⟩] 2) ⟨0, 0, 2, 2⟩ =
      (allItems (QuadTree.leaf ⟨0, 0, 4, 4⟩ [⟨5, ⟨1, 1⟩⟩] 2)).filter
        (fun it => Rect.contains ⟨0, 0, 2, 2⟩ it.point) :=
  c1_query_exact
    (Reachable.ins (QuadTree.new ⟨0, 0, 4, 4⟩ 2) ⟨5, ⟨1, 1⟩⟩ 1
      (QuadTree.leaf ⟨0, 0, 4, 4⟩ [⟨5, ⟨1, 1⟩⟩] 2) true
      (Reachable.new ⟨0, 0, 4, 4⟩ 2) (by decide))
    ⟨0, 0, 2, 2⟩

/-- C2: the claim asserts every insert terminates in bounded recursive depth
because a node at the configured maximum depth never subdivides.  The code
has no maximum depth at all (`QuadTree::new` takes only boundary and
capacity), and inserting a second item at a point already held by a full
capacity-1 node subdivides forever: both coincident points land in the same
quadrant at every level, so for every recursion budget the insert fails to
complete.  This theorem evaluates the code at that failing input. -/
theorem c2_no_max_depth_insert_diverges (fuel : ℕ) :
    insertFuel fuel (QuadTree.leaf ⟨0, 0, 1, 1⟩ [⟨1, ⟨0, 0⟩⟩] 1) ⟨2, ⟨0, 0⟩⟩
      = none :=
  insert_coincident_aux fuel 1 one_pos 1 2

/-- C5: for every point `p` contained (half-open) in a boundary `b`, exactly
one of the four quadrants of `b` contains `p` — the one selected by the
midpoint bit comparison — and the split drain loop re-inserts every drained
item into the child containing it, losing and duplicating nothing: the split
result holds exactly the drained multiset. -/
theorem c5_quadrants_and_split {b : Rect} {p : Point} (hp : b.contains p = true)
    {f : ℕ} {b' : Rect} {items : List Item} {cap : ℕ} {t' : QuadTree}
    (hitems : ∀ it ∈ items, b'.contains it.point = true)
    (hsplit : splitFuel f (QuadTree.leaf b' items cap) = some t') :
    ((quadRect b (child_index_for_point b p)).contains p = true ∧
      ∀ i, i < 4 → (quadRect b i).contains p = true →
        i = child_index_for_point b p) ∧
    itemsMS t' = (items : Multiset Item) := by
  refine ⟨⟨quad_contains_child_index hp,
    fun i hi hq => quad_contains_index_unique hi hq⟩, ?_⟩
  simp only [splitFuel, QuadTree.boundary, QuadTree.items,
    QuadTree.capacity] at hsplit
  cases hgo : splitItemsGo (insertFuel f) b' items (freshKids b' cap) with
  | none => rw [hgo] at hsplit; cases hsplit
  | some kids =>
    rw [hgo] at hsplit
    simp only [Option.some.injEq] at hsplit
    subst hsplit
    obtain ⟨_, _, hms⟩ :=
      splitItemsGo_spec (insertSpec_all f) b' items (freshKids b' cap) kids hgo
        hitems (KidsWF_freshKids b' cap) (KidsOLH_freshKids b' cap)
    rw [itemsMS_nodeOfKids, hms, msSum_freshKids]
    simp

theorem c5_quadrants_and_split_witness :
    ((quadRect ⟨0, 0, 2, 2⟩ (child_index_for_point ⟨0, 0, 2, 2⟩ ⟨1, 1⟩)).contains
        ⟨1, 1⟩ = true ∧
      ∀ i, i < 4 → (quadRect ⟨0, 0, 2, 2⟩ i).contains ⟨1, 1⟩ = true →
        i = child_index_for_point ⟨0, 0, 2, 2⟩ ⟨1, 1⟩) ∧
    itemsMS (nodeOfKids ⟨0, 0, 3, 3⟩ [] 1 (freshKids ⟨0, 0, 3, 3⟩ 1)) =
      (([] : List Item) : Multiset Item) :=
  @c5_quadrants_and_split ⟨0, 0, 2, 2⟩ ⟨1, 1⟩ (by decide) 1 ⟨0, 0, 3, 3⟩ [] 1
    (nodeOfKids ⟨0, 0, 3, 3⟩ [] 1 (freshKids ⟨0, 0, 3, 3⟩ 1))
    (fun it hit => absurd hit (List.not_mem_nil it)) rfl

/-- C6: a completed insert returns `false` iff the item's point fails the
half-open containment test against the node's boundary (points on a min edge
are accepted, points on a max edge are rejected); when the point is
contained the call returns `true` and the item is stored in the tree. -/
theorem c6_insert_result {f : ℕ} {t : QuadTree} {it : Item} {t' : QuadTree}
    {r : Bool} (ht : Reachable t) (h : insertFuel f t it = some (t', r)) :
    (r = false ↔
      ¬(t.boundary.min_x ≤ it.point.x ∧ it.point.x < t.boundary.max_x ∧
        t.boundary.min_y ≤ it.point.y ∧ it.point.y < t.boundary.max_y)) ∧
    (r = true → it ∈ allItems t') := by
  obtain ⟨hwf, _⟩ := reachable_inv ht
  obtain ⟨_, _, _, htrue, hfalse⟩ := insertSpec_all f t it t' r h hwf
  by_cases hc : t.boundary.contains it.point = true
  · obtain ⟨hr, hms⟩ := htrue hc
    subst hr
    constructor
    · simp only [Bool.true_eq_false, false_iff, not_not]
      exact (contains_iff t.boundary it.point).1 hc
    · intro _
      have hmem : it ∈ itemsMS t' := by
        rw [hms]
        exact Multiset.mem_cons_self _ _
      simpa [itemsMS] using hmem
  · have hc' : t.boundary.contains it.point = false := by
      cases hcc : t.boundary.contains it.point
      · rfl
      · exact absurd hcc hc
    obtain ⟨hr, hteq⟩ := hfalse hc'
    subst hr
    refine ⟨?_, fun habs => absurd habs (by simp)⟩
    simp only [true_iff]
    intro hprop
    exact hc ((contains_iff t.boundary it.point).2 hprop)

theorem c6_insert_result_witness :
    (((true : Bool) = false) ↔
      ¬((0:ℚ) ≤ 0 ∧ (0:ℚ) < 1 ∧ (0:ℚ) ≤ 0 ∧ (0:ℚ) < 1)) ∧
    ((true : Bool) = true →
      (⟨7, ⟨0, 0⟩⟩ : Item) ∈
        allItems (QuadTree.leaf ⟨0, 0, 1, 1⟩ [⟨7, ⟨0, 0⟩⟩] 1)) :=
  @c6_insert_result 1 (QuadTree.new ⟨0, 0, 1, 1⟩ 1) ⟨7, ⟨0, 0⟩⟩
    (QuadTree.leaf ⟨0, 0, 1, 1⟩ [⟨7, ⟨0, 0⟩⟩] 1) true
    (Reachable.new ⟨0, 0, 1, 1⟩ 1) (by decide)

/-- C7: in every reachable state a node that has children stores no items
directly — only leaves hold items — and this invariant is preserved by
insert, including the splits it triggers. -/
theorem c7_only_leaves_hold_items {t : QuadTree} (ht : Reachable t) :
    onlyLeavesHoldItems t :=
  (reachable_inv ht).2

theorem c7_only_leaves_hold_items_witness :
    onlyLeavesHoldItems (nodeOfKids ⟨0, 0, 4, 4⟩ [] 1
      (setChild 3
        (setChild 0 (freshKids ⟨0, 0, 4, 4⟩ 1)
          (QuadTree.leaf (quadRect ⟨0, 0, 4, 4⟩ 0) [⟨1, ⟨1, 1⟩⟩] 1))
        (QuadTree.leaf (quadRect ⟨0, 0, 4, 4⟩ 3) [⟨2, ⟨3, 3⟩⟩] 1))) :=
  c7_only_leaves_hold_items
    (Reachable.ins (QuadTree.leaf ⟨0, 0, 4, 4⟩ [⟨1, ⟨1, 1⟩⟩] 1) ⟨2, ⟨3, 3⟩⟩ 2
      (nodeOfKids ⟨0, 0, 4, 4⟩ [] 1
        (setChild 3
          (setChild 0 (freshKids ⟨0, 0, 4, 4⟩ 1)
            (QuadTree.leaf (quadRect ⟨0, 0, 4, 4⟩ 0) [⟨1, ⟨1, 1⟩⟩] 1))
          (QuadTree.leaf (quadRect ⟨0, 0, 4, 4⟩ 3) [⟨2, ⟨3, 3⟩⟩] 1))) true
      (Reachable.ins (QuadTree.new ⟨0, 0, 4, 4⟩ 1) ⟨1, ⟨1, 1⟩⟩ 1
        (QuadTree.leaf ⟨0, 0, 4, 4⟩ [⟨1, ⟨1, 1⟩⟩] 1) true
        (Reachable.new ⟨0, 0, 4, 4⟩ 1) (by decide))
      (by
        have hidx1 : child_index_for_point ⟨0, 0, 4, 4⟩ ⟨1, 1⟩ = 0 := by
          rw [child_index_eq, if_neg (by norm_num),
            show ((0:ℕ) <<< 1 ||| 0) = 0 from rfl]
        have hidx2 : child_index_for_point ⟨0, 0, 4, 4⟩ ⟨3, 3⟩ = 3 := by
          rw [child_index_eq, if_pos (by norm_num),
            show ((1:ℕ) <<< 1 ||| 1) = 3 from rfl]
        have hq0 : insertFuel 1
            (QuadTree.leaf (quadRect ⟨0, 0, 4, 4⟩ 0) [] 1) ⟨1, ⟨1, 1⟩⟩ =
            some (QuadTree.leaf (quadRect ⟨0, 0, 4, 4⟩ 0) [⟨1, ⟨1, 1⟩⟩] 1,
              true) := by
          rw [insertFuel.eq_def]
          dsimp only []
          rw [if_neg (by
            rw [show (QuadTree.leaf (quadRect ⟨0, 0, 4, 4⟩ 0) [] 1).boundary
              = quadRect ⟨0, 0, 4, 4⟩ 0 from rfl,
              show quadRect ⟨0, 0, 4, 4⟩ 0 =
                ⟨0, 0, (1/2 : ℚ) * (0 + 4), (1/2 : ℚ) * (0 + 4)⟩ from rfl,
              show Rect.contains
                ⟨0, 0, (1/2 : ℚ) * (0 + 4), (1/2 : ℚ) * (0 + 4)⟩ ⟨1, 1⟩
                = true from by rw [contains_iff]; norm_num]
            simp)]
          rw [if_pos (by simp)]
          rfl
        have hq3 : insertFuel 1
            (QuadTree.leaf (quadRect ⟨0, 0, 4, 4⟩ 3) [] 1) ⟨2, ⟨3, 3⟩⟩ =
            some (QuadTree.leaf (quadRect ⟨0, 0, 4, 4⟩ 3) [⟨2, ⟨3, 3⟩⟩] 1,
              true) := by
          rw [insertFuel.eq_def]
          dsimp only []
          rw [if_neg (by
            rw [show (QuadTree.leaf (quadRect ⟨0, 0, 4, 4⟩ 3) [] 1).boundary
              = quadRect ⟨0, 0, 4, 4⟩ 3 from rfl,
              show quadRect ⟨0, 0, 4, 4⟩ 3 =
                ⟨(1/2 : ℚ) * (0 + 4), (1/2 : ℚ) * (0 + 4), 4, 4⟩ from rfl,
              show Rect.contains
                ⟨(1/2 : ℚ) * (0 + 4), (1/2 : ℚ) * (0 + 4), 4, 4⟩ ⟨3, 3⟩
                = true from by rw [contains_iff]; norm_num]
            simp)]
          rw [if_pos (by simp)]
          rfl
        rw [insertFuel.eq_def]
        dsimp only []
        rw [if_neg (by
          rw [show (QuadTree.leaf ⟨0, 0, 4, 4⟩ [⟨1, ⟨1, 1⟩⟩] 1).boundary
            = (⟨0, 0, 4, 4⟩ : Rect) from rfl]
          decide)]
        rw [if_neg (by simp)]
        rw [splitItemsGo.eq_def]
        dsimp only []
        rw [hidx1]
        rw [show getChild 0 (freshKids ⟨0, 0, 4, 4⟩ 1) =
          QuadTree.leaf (quadRect ⟨0, 0, 4, 4⟩ 0) [] 1 from rfl]
        rw [hq0]
        dsimp only []
        rw [show splitItemsGo (insertFuel 1) ⟨0, 0, 4, 4⟩ []
            (setChild 0 (freshKids ⟨0, 0, 4, 4⟩ 1)
              (QuadTree.leaf (quadRect ⟨0, 0, 4, 4⟩ 0) [⟨1, ⟨1, 1⟩⟩] 1)) =
          some (setChild 0 (freshKids ⟨0, 0, 4, 4⟩ 1)
            (QuadTree.leaf (quadRect ⟨0, 0, 4, 4⟩ 0) [⟨1, ⟨1, 1⟩⟩] 1))
          from rfl]
        dsimp only []
        rw [hidx2]
        rw [show getChild 3 (setChild 0 (freshKids ⟨0, 0, 4, 4⟩ 1)
            (QuadTree.leaf (quadRect ⟨0, 0, 4, 4⟩ 0) [⟨1, ⟨1, 1⟩⟩] 1)) =
          QuadTree.leaf (quadRect ⟨0, 0, 4, 4⟩ 3) [] 1 from rfl]
        rw [hq3]))

/-! ### Store helper lemmas -/

theorem getD_set_ne {α : Type _} (l : List α) {i j : ℕ} (h : i ≠ j) (v d : α) :
    (l.set i v).getD j d = l.getD j d := by
  simp [List.getD_eq_getElem?_getD, List.getElem?_set_ne h]

theorem getD_set_self {α : Type _} (l : List α) {i : ℕ} (h : i < l.length)
    (v d : α) : (l.set i v).getD i d = v := by
  simp [List.getD_eq_getElem?_getD, List.getElem?_set_self h]

theorem lt_length_of_getD_some {α : Type _} {l : List (Option α)} {i : ℕ}
    {e : α} (h : l.getD i none = some e) : i < l.length := by
  by_contra hge
  rw [List.getD_eq_default _ _ (le_of_not_lt hge)] at h
  cases h

/-- Inversion of a successful `pop_id`. -/
theorem pop_id_some {G : Type} {s : ObjStore G} {id : ℕ} {e : Entry G}
    {s' : ObjStore G} (h : s.pop_id id = (some e, s')) :
    id ≤ usizeMax ∧ id < s.entries.length ∧ s.entries.getD id none = some e ∧
    s' = { entries := s.entries.set id none, free := s.free ++ [id],
           obj_to_ids := match e.obj with
             | some ptr => remove_rev_mapping s.obj_to_ids ptr id
             | none => s.obj_to_ids,
           live_len := s.live_len - 1 } := by
  by_cases hbig : id > usizeMax
  · simp [ObjStore.pop_id, u64_to_usize, hbig] at h
  · simp only [ObjStore.pop_id, u64_to_usize, if_pos hbig, if_neg hbig] at h
    by_cases hge : id ≥ s.entries.length
    · rw [if_pos hge] at h
      simp at h
    · rw [if_neg hge] at h
      cases hget : s.entries.getD id none with
      | none => rw [hget] at h; simp at h
      | some old =>
        rw [hget] at h
        simp only [Prod.mk.injEq, Option.some.injEq] at h
        obtain ⟨heq, hs'⟩ := h
        subst heq
        exact ⟨le_of_not_lt hbig, lt_of_not_ge hge, rfl, hs'.symm⟩

/-- `alloc_id` pops the end of the free list. -/
theorem alloc_id_concat {G : Type} (s : ObjStore G) {f : List ℕ} {x : ℕ}
    (h : s.free = f ++ [x]) :
    s.alloc_id = (x, { s with free := f }) := by
  simp [ObjStore.alloc_id, h, List.getLast?_concat, List.dropLast_concat]

/-- `alloc_id` with an empty free list appends at the tail. -/
theorem alloc_id_nil {G : Type} (s : ObjStore G) (h : s.free = []) :
    s.alloc_id = (s.entries.length, s) := by
  simp [ObjStore.alloc_id, h]

/-- `insert_at`: unrepresentable id. -/
theorem insert_at_big {G : Type} (s : ObjStore G) {id : ℕ} (g : G)
    (ob : Option PyObj) (ag : Bool) (h : id > usizeMax) :
    s.insert_at id g ob ag = .error .IdDoesNotFitUsize := by
  simp [ObjStore.insert_at, u64_to_usize, h]

/-- `insert_at`: dense violation without gap filling. -/
theorem insert_at_out_of_order {G : Type} (s : ObjStore G) {id : ℕ} (g : G)
    (ob : Option PyObj) (hle : id ≤ usizeMax) (hgt : id > s.entries.length) :
    s.insert_at id g ob false = .error .OutOfOrderId := by
  simp only [ObjStore.insert_at, u64_to_usize, if_neg (not_lt.2 hle)]
  rw [if_pos ⟨hgt, trivial⟩]

/-- `insert_at`: append at the tail. -/
theorem insert_at_append {G : Type} (s : ObjStore G) {id : ℕ} (g : G)
    (ob : Option PyObj) (ag : Bool) (hle : id ≤ usizeMax)
    (heq : id = s.entries.length) :
    s.insert_at id g ob ag = .ok
      { entries := s.entries ++ [some ⟨g, ob⟩], free := s.free,
        obj_to_ids := match ob with
          | some ptr => add_rev_mapping s.obj_to_ids ptr id
          | none => s.obj_to_ids,
        live_len := s.live_len + 1 } := by
  subst heq
  simp only [ObjStore.insert_at, u64_to_usize, if_neg (not_lt.2 hle)]
  rw [if_neg (by simp), if_neg (lt_irrefl _), if_pos rfl]

/-- `insert_at`: replace an occupied slot in place. -/
theorem insert_at_replace {G : Type} (s : ObjStore G) {id : ℕ} (g : G)
    (ob : Option PyObj) (ag : Bool) {old : Entry G} (hle : id ≤ usizeMax)
    (hget : s.entries.getD id none = some old) :
    s.insert_at id g ob ag = .ok
      { entries := s.entries.set id (some ⟨g, ob⟩), free := s.free,
        obj_to_ids :=
          match ob with
          | some ptr => add_rev_mapping
              (match old.obj with
               | some optr => remove_rev_mapping s.obj_to_ids optr id
               | none => s.obj_to_ids) ptr id
          | none =>
              match old.obj with
              | some optr => remove_rev_mapping s.obj_to_ids optr id
              | none => s.obj_to_ids,
        live_len := s.live_len } := by
  have hlt := lt_length_of_getD_some hget
  simp only [ObjStore.insert_at, u64_to_usize, if_neg (not_lt.2 hle)]
  rw [if_neg (by rw [not_and]; intro hgt; exact absurd hgt (not_lt.2 (le_of_lt hlt))),
    if_neg (not_lt.2 (le_of_lt hlt)), if_neg (ne_of_lt hlt), hget]
  simp only [Option.isNone_some, Bool.false_eq_true, if_false]

/-- `insert_at`: fill an existing hole. -/
theorem insert_at_fill_hole {G : Type} (s : ObjStore G) {id : ℕ} (g : G)
    (ob : Option PyObj) (ag : Bool) (hle : id ≤ usizeMax)
    (hlt : id < s.entries.length) (hget : s.entries.getD id none = none) :
    s.insert_at id g ob ag = .ok
      { entries := s.entries.set id (some ⟨g, ob⟩), free := s.free,
        obj_to_ids := match ob with
          | some ptr => add_rev_mapping s.obj_to_ids ptr id
          | none => s.obj_to_ids,
        live_len := s.live_len + 1 } := by
  simp only [ObjStore.insert_at, u64_to_usize, if_neg (not_lt.2 hle)]
  rw [if_neg (by rw [not_and]; intro hgt; exact absurd hgt (not_lt.2 (le_of_lt hlt))),
    if_neg (not_lt.2 (le_of_lt hlt)), if_neg (ne_of_lt hlt), hget]
  simp only [Option.isNone_none, if_true]

/-- `insert_at`: gap filling places holes then appends at `id`. -/
theorem insert_at_gap {G : Type} (s : ObjStore G) {id : ℕ} (g : G)
    (ob : Option PyObj) (hle : id ≤ usizeMax) (hgt : id > s.entries.length) :
    s.insert_at id g ob true = .ok
      { entries := (s.entries ++ List.replicate (id - s.entries.length) none)
          ++ [some ⟨g, ob⟩],
        free := s.free,
        obj_to_ids := match ob with
          | some ptr => add_rev_mapping s.obj_to_ids ptr id
          | none => s.obj_to_ids,
        live_len := s.live_len + 1 } := by
  simp only [ObjStore.insert_at, u64_to_usize, if_neg (not_lt.2 hle)]
  rw [if_neg (by rw [not_and]; intro _ hfalse; cases hfalse), if_pos hgt,
    if_pos (by rw [List.length_append, List.length_replicate]; omega)]

/-! ### C4: insert_at case analysis -/

/-- C4: `insert_at` succeeds and places the entry whenever `id` addresses the
dense array or extends it by exactly one — appending at the tail, replacing
in place (releasing the old payload's reverse mapping first), or filling a
hole (incrementing the live count); with `allow_gaps` false it fails with
the out-of-order error exactly when `id` exceeds the dense length by more
than one slot; with `allow_gaps` true the intervening slots become holes not
counted as live; an id above the native addressing width fails with the
id-too-large error. -/
theorem c4_insert_at_cases {G : Type} (s : ObjStore G) (id : ℕ) (g : G)
    (ob : Option PyObj) (ag : Bool) :
    (id > usizeMax → s.insert_at id g ob ag = .error .IdDoesNotFitUsize) ∧
    (id ≤ usizeMax → id > s.entries.length →
      s.insert_at id g ob false = .error .OutOfOrderId) ∧
    (id ≤ usizeMax → id = s.entries.length →
      s.insert_at id g ob ag = .ok
        { entries := s.entries ++ [some ⟨g, ob⟩], free := s.free,
          obj_to_ids := match ob with
            | some ptr => add_rev_mapping s.obj_to_ids ptr id
            | none => s.obj_to_ids,
          live_len := s.live_len + 1 }) ∧
    (id ≤ usizeMax → ∀ old : Entry G, s.entries.getD id none = some old →
      s.insert_at id g ob ag = .ok
        { entries := s.entries.set id (some ⟨g, ob⟩), free := s.free,
          obj_to_ids :=
            match ob with
            | some ptr => add_rev_mapping
                (match old.obj with
                 | some optr => remove_rev_mapping s.obj_to_ids optr id
                 | none => s.obj_to_ids) ptr id
            | none =>
                match old.obj with
                | some optr => remove_rev_mapping s.obj_to_ids optr id
                | none => s.obj_to_ids,
          live_len := s.live_len }) ∧
    (id ≤ usizeMax → id < s.entries.length → s.entries.getD id none = none →
      s.insert_at id g ob ag = .ok
        { entries := s.entries.set id (some ⟨g, ob⟩), free := s.free,
          obj_to_ids := match ob with
            | some ptr => add_rev_mapping s.obj_to_ids ptr id
            | none => s.obj_to_ids,
          live_len := s.live_len + 1 }) ∧
    (id ≤ usizeMax → id > s.entries.length →
      s.insert_at id g ob true = .ok
        { entries := (s.entries ++ List.replicate (id - s.entries.length) none)
            ++ [some ⟨g, ob⟩],
          free := s.free,
          obj_to_ids := match ob with
            | some ptr => add_rev_mapping s.obj_to_ids ptr id
            | none => s.obj_to_ids,
          live_len := s.live_len + 1 } ∧
      ∀ j, s.entries.length ≤ j → j < id →
        ((s.entries ++ List.replicate (id - s.entries.length) none)
          ++ [some (⟨g, ob⟩ : Entry G)]).getD j none = none) := by
  refine ⟨fun h => insert_at_big s g ob ag h,
    fun hle hgt => insert_at_out_of_order s g ob hle hgt,
    fun hle heq => insert_at_append s g ob ag hle heq,
    fun hle old hget => insert_at_replace s g ob ag hle hget,
    fun hle hlt hget => insert_at_fill_hole s g ob ag hle hlt hget,
    fun hle hgt => ⟨insert_at_gap s g ob hle hgt, ?_⟩⟩
  intro j hj1 hj2
  have hjlt : j < (s.entries ++ List.replicate (id - s.entries.length) none).length := by
    rw [List.length_append, List.length_replicate]
    omega
  rw [List.getD_eq_getElem?_getD, List.getElem?_append_left hjlt,
    List.getElem?_append_right hj1, List.getElem?_replicate,
    if_pos (by omega)]
  rfl

/-! ### C3: gather / bulk lookup -/

theorem gather_lenient_ok {G : Type} (s : ObjStore G) :
    ∀ ids : List ℕ, (∀ i ∈ ids, i < s.entries.length) →
      (∀ i ∈ ids, i ≤ usizeMax) →
      gather_objects_ref s ids false =
        .ok (ids.map (fun i => match s.entries.getD i none with
          | some e => e.obj
          | none => none)) := by
  intro ids
  induction ids with
  | nil => intro _ _; rfl
  | cons i rest ih =>
    intro hin hmax
    have hi := hin i (List.mem_cons_self _ _)
    simp only [gather_objects_ref, u64_to_usize,
      if_neg (not_lt.2 (hmax i (List.mem_cons_self _ _))), List.map_cons]
    rw [if_neg (not_le.2 hi)]
    rw [ih (fun x hx => hin x (List.mem_cons_of_mem _ hx))
      (fun x hx => hmax x (List.mem_cons_of_mem _ hx))]
    cases hget : s.entries.getD i none with
    | some e => rfl
    | none => rfl

theorem bulk_lenient_ok {G : Type} (s : ObjStore G) :
    ∀ ids : List ℕ, (∀ i ∈ ids, i < s.entries.length) →
      (∀ i ∈ ids, i ≤ usizeMax) →
      bulk_obj_ptrs s ids false =
        .ok (ids.map (fun i => match s.entries.getD i none with
          | some e => e.obj
          | none => none)) := by
  intro ids
  induction ids with
  | nil => intro _ _; rfl
  | cons i rest ih =>
    intro hin hmax
    have hi := hin i (List.mem_cons_self _ _)
    simp only [bulk_obj_ptrs, u64_to_usize,
      if_neg (not_lt.2 (hmax i (List.mem_cons_self _ _))), List.map_cons]
    rw [if_neg (not_le.2 hi)]
    rw [ih (fun x hx => hin x (List.mem_cons_of_mem _ hx))
      (fun x hx => hmax x (List.mem_cons_of_mem _ hx))]
    cases hget : s.entries.getD i none with
    | some e =>
      simp only []
      cases e.obj <;> rfl
    | none => rfl

/-- C3 counterexample: the claim says lenient mode (strict flag false) never
fails and represents out-of-range ids by a "no payload" value, but on the
empty store both lookups error with `IdOutOfBounds` for the out-of-range
id `0` even in lenient mode (the bounds check precedes the strictness
check in the source). -/
theorem c3_lenient_out_of_range_fails :
    gather_objects_ref (ObjStore.new Unit) [0] false = .error .IdOutOfBounds ∧
    bulk_obj_ptrs (ObjStore.new Unit) [0] false = .error .IdOutOfBounds :=
  ⟨rfl, rfl⟩

/-- C3 (amended): for ids within the dense length (and representable),
lenient-mode gather/bulk lookup never fails — each hole or missing payload
is represented by an explicit "no payload" value, in a parallel sequence
preserving input order; an out-of-range id fails the whole call with the
out-of-bounds error in both modes, not just strict mode. -/
theorem c3_gather_bulk_lenient {G : Type} (s : ObjStore G) (ids : List ℕ)
    (hin : ∀ i ∈ ids, i < s.entries.length) (hmax : ∀ i ∈ ids, i ≤ usizeMax) :
    gather_objects_ref s ids false =
      .ok (ids.map (fun i => match s.entries.getD i none with
        | some e => e.obj
        | none => none)) ∧
    bulk_obj_ptrs s ids false =
      .ok (ids.map (fun i => match s.entries.getD i none with
        | some e => e.obj
        | none => none)) ∧
    (∀ (strict : Bool) (j : ℕ) (rest : List ℕ), j ≤ usizeMax →
      s.entries.length ≤ j →
      gather_objects_ref s (j :: rest) strict = .error .IdOutOfBounds ∧
      bulk_obj_ptrs s (j :: rest) strict = .error .IdOutOfBounds) := by
  refine ⟨gather_lenient_ok s ids hin hmax, bulk_lenient_ok s ids hin hmax,
    fun strict j rest hjmax hj => ⟨?_, ?_⟩⟩
  · simp only [gather_objects_ref, u64_to_usize, if_neg (not_lt.2 hjmax)]
    rw [if_pos hj]
  · simp only [bulk_obj_ptrs, u64_to_usize, if_neg (not_lt.2 hjmax)]
    rw [if_pos hj]

/-! ### Free-list invariant of reachable stores -/

theorem insert_at_free_len {G : Type} {s s' : ObjStore G} {id : ℕ} {g : G}
    {ob : Option PyObj} {ag : Bool} (h : s.insert_at id g ob ag = .ok s') :
    s'.free = s.free ∧ s.entries.length ≤ s'.entries.length := by
  by_cases hbig : id > usizeMax
  · rw [insert_at_big s g ob ag hbig] at h
    cases h
  · have hle := le_of_not_lt hbig
    rcases lt_trichotomy id s.entries.length with hlt | heq | hgt
    · cases hget : s.entries.getD id none with
      | some old =>
        rw [insert_at_replace s g ob ag hle hget] at h
        simp only [Except.ok.injEq] at h
        subst h
        exact ⟨rfl, le_of_eq (List.length_set _ _ _).symm⟩
      | none =>
        rw [insert_at_fill_hole s g ob ag hle hlt hget] at h
        simp only [Except.ok.injEq] at h
        subst h
        exact ⟨rfl, le_of_eq (List.length_set _ _ _).symm⟩
    · rw [insert_at_append s g ob ag hle heq] at h
      simp only [Except.ok.injEq] at h
      subst h
      simp
    · cases ag with
      | false =>
        rw [insert_at_out_of_order s g ob hle hgt] at h
        cases h
      | true =>
        rw [insert_at_gap s g ob hle hgt] at h
        simp only [Except.ok.injEq] at h
        subst h
        refine ⟨rfl, ?_⟩
        simp only [List.length_append, List.length_replicate,
          List.length_singleton]
        omega

theorem insert_at_preserves_freeBounded {G : Type} {s s' : ObjStore G}
    {id : ℕ} {g : G} {ob : Option PyObj} {ag : Bool}
    (h : s.insert_at id g ob ag = .ok s') (hfb : freeBounded s) :
    freeBounded s' := by
  obtain ⟨hfree, hlen⟩ := insert_at_free_len h
  intro i hi
  rw [hfree] at hi
  exact lt_of_lt_of_le (hfb i hi) hlen

theorem alloc_id_preserves {G : Type} (s : ObjStore G) (hfb : freeBounded s) :
    freeBounded (s.alloc_id).2 ∧ (s.alloc_id).2.entries = s.entries := by
  unfold ObjStore.alloc_id
  cases hl : s.free.getLast? with
  | none => exact ⟨hfb, rfl⟩
  | some x =>
    refine ⟨?_, rfl⟩
    intro i hi
    exact hfb i (List.dropLast_subset s.free hi)

theorem insert_preserves_freeBounded {G : Type} (s : ObjStore G) (g : G)
    (ob : Option PyObj) (hfb : freeBounded s) :
    freeBounded (s.insert g ob).2 := by
  obtain ⟨hfb1, hent1⟩ := alloc_id_preserves s hfb
  unfold ObjStore.insert
  cases halloc : s.alloc_id with
  | mk id s1 =>
    rw [halloc] at hfb1
    simp only []
    cases hins : s1.insert_at id g ob false with
    | ok s2 => exact insert_at_preserves_freeBounded hins hfb1
    | error e => exact hfb1

theorem pop_id_none {G : Type} {s : ObjStore G} {id : ℕ} {s' : ObjStore G}
    (h : s.pop_id id = (none, s')) : s' = s := by
  by_cases hbig : id > usizeMax
  · simp only [ObjStore.pop_id, u64_to_usize, if_pos hbig] at h
    exact (Prod.mk.injEq _ _ _ _ ▸ h).2.symm
  · simp only [ObjStore.pop_id, u64_to_usize, if_neg hbig] at h
    by_cases hge : id ≥ s.entries.length
    · rw [if_pos hge] at h
      exact (Prod.mk.injEq _ _ _ _ ▸ h).2.symm
    · rw [if_neg hge] at h
      cases hget : s.entries.getD id none with
      | none =>
        rw [hget] at h
        exact (Prod.mk.injEq _ _ _ _ ▸ h).2.symm
      | some old =>
        rw [hget] at h
        simp at h

theorem pop_id_preserves_freeBounded {G : Type} (s : ObjStore G) (id : ℕ)
    (hfb : freeBounded s) : freeBounded (s.pop_id id).2 := by
  cases hpop : s.pop_id id with
  | mk o s' =>
    cases o with
    | none => rw [pop_id_none hpop]; exact hfb
    | some e =>
      obtain ⟨_, hlt, _, hs'⟩ := pop_id_some hpop
      subst hs'
      intro i hi
      simp only [List.length_set]
      rcases List.mem_append.1 hi with hi | hi
      · exact hfb i hi
      · rw [List.mem_singleton.1 hi]
        exact hlt

theorem popLoop_preserves {G : Type} : ∀ (ids : List ℕ) (s : ObjStore G),
    freeBounded s →
    freeBounded (popLoop ids s).2 ∧
      (popLoop ids s).2.entries.length = s.entries.length := by
  intro ids
  induction ids with
  | nil => intro s h; exact ⟨h, rfl⟩
  | cons i rest ih =>
    intro s h
    simp only [popLoop]
    by_cases hlt : i < s.entries.length
    · rw [if_pos hlt]
      cases hget : s.entries.getD i none with
      | none => exact ih s h
      | some e =>
        have hfb' : freeBounded
            { entries := s.entries.set i none, free := s.free ++ [i],
              obj_to_ids := s.obj_to_ids, live_len := s.live_len - 1 } := by
          intro j hj
          simp only [List.length_set]
          rcases List.mem_append.1 hj with hj | hj
          · exact h j hj
          · rw [List.mem_singleton.1 hj]
            exact hlt
        obtain ⟨hfb'', hlen''⟩ := ih _ hfb'
        cases hrec : popLoop rest
            { entries := s.entries.set i none, free := s.free ++ [i],
              obj_to_ids := s.obj_to_ids, live_len := s.live_len - 1 } with
        | mk out s'' =>
          rw [hrec] at hfb'' hlen''
          simp only [List.length_set] at hlen''
          exact ⟨hfb'', hlen''⟩
    · rw [if_neg hlt]
      exact ih s h

theorem popAll_preserves_freeBounded {G : Type} (s : ObjStore G) (ob : PyObj)
    (hfb : freeBounded s) : freeBounded (s.pop_by_object_all ob).2 := by
  unfold ObjStore.pop_by_object_all
  cases hfind : mapFind s.obj_to_ids ob with
  | none => exact hfb
  | some ids =>
    simp only []
    exact (popLoop_preserves (ids.mergeSort (fun a b => a ≤ b))
      { entries := s.entries, free := s.free,
        obj_to_ids := mapErase s.obj_to_ids ob, live_len := s.live_len }
      (fun i hi => hfb i hi)).1

theorem storeReachable_freeBounded {G : Type} {s : ObjStore G}
    (h : StoreReachable s) : freeBounded s := by
  induction h with
  | new => intro i hi; cases hi
  | insert_at s id g ob ag s' _ hok ih =>
    exact insert_at_preserves_freeBounded hok ih
  | ins s g ob _ ih => exact insert_preserves_freeBounded s g ob ih
  | pop s id _ ih => exact pop_id_preserves_freeBounded s id ih
  | popAll s ob _ ih => exact popAll_preserves_freeBounded s ob ih

theorem alloc_id_le {G : Type} (s : ObjStore G) (hfb : freeBounded s) :
    (s.alloc_id).1 ≤ s.entries.length := by
  unfold ObjStore.alloc_id
  cases hl : s.free.getLast? with
  | none => exact le_refl _
  | some x =>
    exact le_of_lt (hfb x (List.mem_of_mem_getLast? (by rw [hl]; rfl)))

/-! ### C9 and C10 -/

/-- C9: immediately after a successful `pop_id x`, the next `alloc_id`
returns `x` (LIFO reuse of the most recently freed index); and on reachable
stores `alloc_id` always returns an index within-or-at the current dense
length — both before and after the pop. -/
theorem c9_pop_alloc_lifo {G : Type} {s : ObjStore G} {x : ℕ} {e : Entry G}
    {s1 : ObjStore G} (hreach : StoreReachable s)
    (hpop : s.pop_id x = (some e, s1)) :
    (s1.alloc_id).1 = x ∧ (s1.alloc_id).1 ≤ s1.entries.length ∧
    (s.alloc_id).1 ≤ s.entries.length := by
  obtain ⟨hle, hlt, hget, hs1⟩ := pop_id_some hpop
  have h1 : s1.free = s.free ++ [x] := by rw [hs1]
  have h1len : s1.entries.length = s.entries.length := by
    rw [hs1]
    exact List.length_set _ _ _
  rw [alloc_id_concat s1 h1]
  refine ⟨rfl, ?_, alloc_id_le s (storeReachable_freeBounded hreach)⟩
  rw [h1len]
  exact le_of_lt hlt

/-- C10: refilling a popped slot does not reclaim it from the free list:
after `pop_id x` succeeds and `insert_at x` re-occupies slot `x`, index `x`
is still on the free list, so `alloc_id` returns `x` while `contains_id x`
holds, and the auto-allocating `insert` then returns id `x` and replaces the
occupied entry in place (releasing the old payload's reverse mapping)
instead of using a fresh id — the dense length does not grow. -/
theorem c10_stale_free_list {G : Type} {s : ObjStore G} {x : ℕ} {e : Entry G}
    {s1 : ObjStore G} (hpop : s.pop_id x = (some e, s1)) {g : G}
    {p : Option PyObj} {ag : Bool} {s2 : ObjStore G}
    (hins : s1.insert_at x g p ag = .ok s2) (g' : G) (p' : Option PyObj) :
    x ∈ s2.free ∧ (s2.alloc_id).1 = x ∧ s2.contains_id x = true ∧
    (s2.insert g' p').1 = x ∧
    (s2.insert g' p').2.entries = s2.entries.set x (some ⟨g', p'⟩) ∧
    (s2.insert g' p').2.entries.length = s2.entries.length ∧
    (s2.insert g' p').2.obj_to_ids =
      (match p' with
       | some q => add_rev_mapping
           (match p with
            | some ptr => remove_rev_mapping s2.obj_to_ids ptr x
            | none => s2.obj_to_ids) q x
       | none =>
           match p with
           | some ptr => remove_rev_mapping s2.obj_to_ids ptr x
           | none => s2.obj_to_ids) := by
  obtain ⟨hle, hlt, hget, hs1⟩ := pop_id_some hpop
  have h1free : s1.free = s.free ++ [x] := by rw [hs1]
  have h1len : s1.entries.length = s.entries.length := by
    rw [hs1]
    exact List.length_set _ _ _
  have h1get : s1.entries.getD x none = none := by
    rw [hs1]
    exact getD_set_self _ hlt _ _
  rw [insert_at_fill_hole s1 g p ag hle (by rw [h1len]; exact hlt) h1get] at hins
  simp only [Except.ok.injEq] at hins
  have hfree2 : s2.free = s.free ++ [x] := by
    rw [← hins]
    exact h1free
  have hlen2 : s2.entries.length = s.entries.length := by
    rw [← hins]
    simp only [List.length_set]
    exact h1len
  have hget2 : s2.entries.getD x none = some ⟨g, p⟩ := by
    rw [← hins]
    exact getD_set_self _ (by rw [h1len]; exact hlt) _ _
  refine ⟨by rw [hfree2]; exact List.mem_append_right _ (List.mem_singleton.2 rfl),
    ?_, ?_, ?_⟩
  · rw [alloc_id_concat _ hfree2]
  · simp only [ObjStore.contains_id, u64_to_usize, if_neg (not_lt.2 hle), hget2,
      Option.isSome_some, Bool.and_eq_true, decide_eq_true_eq]
    exact ⟨by rw [hlen2]; exact hlt, trivial⟩
  · unfold ObjStore.insert
    rw [alloc_id_concat _ hfree2]
    simp only []
    rw [insert_at_replace
      { entries := s2.entries, free := s.free, obj_to_ids := s2.obj_to_ids,
        live_len := s2.live_len } g' p' false hle hget2]
    exact ⟨rfl, rfl, List.length_set _ _ _, by cases p' <;> cases p <;> rfl⟩

/-! ### C8: reverse lookup by payload identity -/

theorem mapFind_mapErase (m : RevMap) (k : ℕ) :
    mapFind (mapErase m k) k = none := by
  induction m with
  | nil => rfl
  | cons kv rest ih =>
    simp only [mapErase, List.filter_cons] at *
    by_cases h : kv.1 = k
    · rw [if_neg (by simp [h])]
      exact ih
    · simp only [mapFind, List.find?_cons] at ih ⊢
      rw [if_pos (by simpa using h), List.find?_cons,
        show (kv.1 == k) = false from by simpa using h]
      exact ih

theorem popLoop_cons_occupied {G : Type} (s : ObjStore G) {i : ℕ} {e : Entry G}
    (rest : List ℕ) (hget : s.entries.getD i none = some e) :
    popLoop (i :: rest) s =
      ((i, e) :: (popLoop rest
          { entries := s.entries.set i none, free := s.free ++ [i],
            obj_to_ids := s.obj_to_ids, live_len := s.live_len - 1 }).1,
        (popLoop rest
          { entries := s.entries.set i none, free := s.free ++ [i],
            obj_to_ids := s.obj_to_ids, live_len := s.live_len - 1 }).2) := by
  have hlt := lt_length_of_getD_some hget
  simp only [popLoop, if_pos hlt, hget]

/-- C8: if one payload identity is held at exactly the occupied ids
`{a, b, c}` (named so that `a < b < c`), then `min_id_for_obj` returns the
minimum, `ids_for_obj_sorted` returns them in ascending order, and
`pop_by_object_all` removes exactly those ids — returning the (id, entry)
pairs ascending by id and pushing each id onto the free list — after which
`contains_obj` is false for that identity. -/
theorem c8_identity_bucket {G : Type} {s : ObjStore G} {k : ℕ} {l : List ℕ}
    {a b c : ℕ} {ea eb ec : Entry G} (hfind : mapFind s.obj_to_ids k = some l)
    (hperm : l.Perm [a, b, c]) (hab : a < b) (hbc : b < c)
    (ha : s.entries.getD a none = some ea)
    (hb : s.entries.getD b none = some eb)
    (hc : s.entries.getD c none = some ec) :
    s.min_id_for_obj k = some a ∧
    s.ids_for_obj_sorted k = [a, b, c] ∧
    s.pop_by_object_all k =
      ([(a, ea), (b, eb), (c, ec)],
        { entries := ((s.entries.set a none).set b none).set c none,
          free := s.free ++ [a] ++ [b] ++ [c],
          obj_to_ids := mapErase s.obj_to_ids k,
          live_len := s.live_len - 3 }) ∧
    (s.pop_by_object_all k).2.contains_obj k = false := by
  have hsorted : List.Sorted (fun x y => x ≤ y) [a, b, c] := by
    simp [List.sorted_cons]
    omega
  have hmerge : l.mergeSort (fun x y => x ≤ y) = [a, b, c] := by
    refine List.eq_of_perm_of_sorted ((List.mergeSort_perm l _).trans hperm)
      ?_ hsorted
    exact List.sorted_mergeSort' l
  have hmin : l.min? = some a := by
    rw [List.min?_eq_some_iff']
    constructor
    · exact hperm.mem_iff.2 (by simp)
    · intro x hx
      have hx3 : x ∈ [a, b, c] := hperm.subset hx
      simp only [List.mem_cons, List.mem_singleton, List.not_mem_nil,
        or_false] at hx3
      rcases hx3 with rfl | rfl | rfl <;> omega
  have hpop : s.pop_by_object_all k =
      ([(a, ea), (b, eb), (c, ec)],
        { entries := ((s.entries.set a none).set b none).set c none,
          free := s.free ++ [a] ++ [b] ++ [c],
          obj_to_ids := mapErase s.obj_to_ids k,
          live_len := s.live_len - 3 }) := by
    unfold ObjStore.pop_by_object_all
    rw [hfind]
    simp only []
    rw [hmerge]
    rw [popLoop_cons_occupied _ [b, c] (show
      ({ entries := s.entries, free := s.free,
          obj_to_ids := mapErase s.obj_to_ids k,
          live_len := s.live_len } : ObjStore G).entries.getD a none
        = some ea from ha)]
    rw [popLoop_cons_occupied _ [c] (show
      (s.entries.set a none).getD b none = some eb from
        (getD_set_ne s.entries (Nat.ne_of_lt hab) none none).trans hb)]
    rw [popLoop_cons_occupied _ [] (show
      ((s.entries.set a none).set b none).getD c none = some ec from
        ((getD_set_ne (s.entries.set a none) (Nat.ne_of_lt hbc) none none).trans
          ((getD_set_ne s.entries (Nat.ne_of_lt (lt_trans hab hbc)) none
            none).trans hc)))]
    simp only [popLoop, Prod.mk.injEq, ObjStore.mk.injEq]
    refine ⟨trivial, trivial, trivial, trivial, ?_⟩
    omega
  refine ⟨?_, ?_, hpop, ?_⟩
  · simp [ObjStore.min_id_for_obj, hfind, hmin]
  · simp only [ObjStore.ids_for_obj_sorted, hfind]
    exact hmerge
  · rw [hpop]
    simp [ObjStore.contains_obj, mapFind_mapErase]

/-! ### Store witnesses -/

theorem c3_gather_bulk_lenient_witness :
    gather_objects_ref
      ({ entries := [some ⟨(), some 5⟩, none, some ⟨(), none⟩], free := [],
         obj_to_ids := [(5, [0])], live_len := 2 } : ObjStore Unit)
      [2, 0, 1] false = .ok [none, some 5, none] ∧
    bulk_obj_ptrs
      ({ entries := [some ⟨(), some 5⟩, none, some ⟨(), none⟩], free := [],
         obj_to_ids := [(5, [0])], live_len := 2 } : ObjStore Unit)
      [2, 0, 1] false = .ok [none, some 5, none] ∧
    gather_objects_ref
      ({ entries := [some ⟨(), some 5⟩, none, some ⟨(), none⟩], free := [],
         obj_to_ids := [(5, [0])], live_len := 2 } : ObjStore Unit)
      [5] false = .error .IdOutOfBounds ∧
    bulk_obj_ptrs
      ({ entries := [some ⟨(), some 5⟩, none, some ⟨(), none⟩], free := [],
         obj_to_ids := [(5, [0])], live_len := 2 } : ObjStore Unit)
      [5] false = .error .IdOutOfBounds :=
  ⟨(c3_gather_bulk_lenient _ [2, 0, 1] (by decide) (by decide)).1,
   (c3_gather_bulk_lenient _ [2, 0, 1] (by decide) (by decide)).2.1,
   ((c3_gather_bulk_lenient _ [2, 0, 1] (by decide) (by decide)).2.2 false 5 []
     (by decide) (by decide)).1,
   ((c3_gather_bulk_lenient _ [2, 0, 1] (by decide) (by decide)).2.2 false 5 []
     (by decide) (by decide)).2⟩

theorem c4_insert_at_cases_witness :
    ObjStore.insert_at
      ({ entries := [some ⟨(), some 42⟩, none], free := [],
         obj_to_ids := [(42, [0])], live_len := 1 } : ObjStore Unit)
      (2 ^ 64) () none false = .error .IdDoesNotFitUsize ∧
    ObjStore.insert_at
      ({ entries := [some ⟨(), some 42⟩, none], free := [],
         obj_to_ids := [(42, [0])], live_len := 1 } : ObjStore Unit)
      5 () none false = .error .OutOfOrderId ∧
    ObjStore.insert_at
      ({ entries := [some ⟨(), some 42⟩, none], free := [],
         obj_to_ids := [(42, [0])], live_len := 1 } : ObjStore Unit)
      2 () (some 7) false = .ok
        { entries := [some ⟨(), some 42⟩, none, some ⟨(), some 7⟩], free := [],
          obj_to_ids := [(42, [0]), (7, [2])], live_len := 2 } ∧
    ObjStore.insert_at
      ({ entries := [some ⟨(), some 42⟩, none], free := [],
         obj_to_ids := [(42, [0])], live_len := 1 } : ObjStore Unit)
      0 () none false = .ok
        { entries := [some ⟨(), none⟩, none], free := [],
          obj_to_ids := [], live_len := 1 } ∧
    ObjStore.insert_at
      ({ entries := [some ⟨(), some 42⟩, none], free := [],
         obj_to_ids := [(42, [0])], live_len := 1 } : ObjStore Unit)
      1 () none false = .ok
        { entries := [some ⟨(), some 42⟩, some ⟨(), none⟩], free := [],
          obj_to_ids := [(42, [0])], live_len := 2 } ∧
    ObjStore.insert_at
      ({ entries := [some ⟨(), some 42⟩, none], free := [],
         obj_to_ids := [(42, [0])], live_len := 1 } : ObjStore Unit)
      4 () none true = .ok
        { entries := [some ⟨(), some 42⟩, none, none, none, some ⟨(), none⟩],
          free := [], obj_to_ids := [(42, [0])], live_len := 2 } :=
  ⟨(c4_insert_at_cases _ (2 ^ 64) () none false).1 (by decide),
   (c4_insert_at_cases _ 5 () none false).2.1 (by decide) (by decide),
   (c4_insert_at_cases _ 2 () (some 7) false).2.2.1 (by decide) (by decide),
   (c4_insert_at_cases _ 0 () none false).2.2.2.1 (by decide) ⟨(), some 42⟩
     (by decide),
   (c4_insert_at_cases _ 1 () none false).2.2.2.2.1 (by decide) (by decide)
     (by decide),
   ((c4_insert_at_cases _ 4 () none true).2.2.2.2.2 (by decide) (by decide)).1⟩

theorem c8_identity_bucket_witness :
    ObjStore.min_id_for_obj
      ({ entries := [some ⟨(), some 9⟩, some ⟨(), some 9⟩, some ⟨(), some 9⟩],
         free := [], obj_to_ids := [(9, [1, 0, 2])], live_len := 3 } :
        ObjStore Unit) 9 = some 0 ∧
    ObjStore.ids_for_obj_sorted
      ({ entries := [some ⟨(), some 9⟩, some ⟨(), some 9⟩, some ⟨(), some 9⟩],
         free := [], obj_to_ids := [(9, [1, 0, 2])], live_len := 3 } :
        ObjStore Unit) 9 = [0, 1, 2] ∧
    ObjStore.pop_by_object_all
      ({ entries := [some ⟨(), some 9⟩, some ⟨(), some 9⟩, some ⟨(), some 9⟩],
         free := [], obj_to_ids := [(9, [1, 0, 2])], live_len := 3 } :
        ObjStore Unit) 9 =
      ([(0, ⟨(), some 9⟩), (1, ⟨(), some 9⟩), (2, ⟨(), some 9⟩)],
        { entries := [none, none, none], free := [0, 1, 2],
          obj_to_ids := [], live_len := 0 }) ∧
    (ObjStore.pop_by_object_all
      ({ entries := [some ⟨(), some 9⟩, some ⟨(), some 9⟩, some ⟨(), some 9⟩],
         free := [], obj_to_ids := [(9, [1, 0, 2])], live_len := 3 } :
        ObjStore Unit) 9).2.contains_obj 9 = false :=
  c8_identity_bucket rfl (by decide) (by decide) (by decide) rfl rfl rfl

theorem c9_pop_alloc_lifo_witness :
    (ObjStore.alloc_id
      (⟨[none], [0], [], 0⟩ : ObjStore Unit)).1 = 0 ∧
    (ObjStore.alloc_id
      (⟨[none], [0], [], 0⟩ : ObjStore Unit)).1 ≤
      (⟨[none], [0], [], 0⟩ : ObjStore Unit).entries.length ∧
    (ObjStore.alloc_id
      (⟨[some ⟨(), none⟩], [], [], 1⟩ : ObjStore Unit)).1 ≤
      (⟨[some ⟨(), none⟩], [], [], 1⟩ : ObjStore Unit).entries.length :=
  @c9_pop_alloc_lifo Unit ⟨[some ⟨(), none⟩], [], [], 1⟩ 0 ⟨(), none⟩
    ⟨[none], [0], [], 0⟩
    (StoreReachable.ins (ObjStore.new Unit) () none StoreReachable.new) rfl

theorem c10_stale_free_list_witness :
    (0 : ℕ) ∈ (⟨[some ⟨(), none⟩], [0], [], 1⟩ : ObjStore Unit).free ∧
    (ObjStore.alloc_id
      (⟨[some ⟨(), none⟩], [0], [], 1⟩ : ObjStore Unit)).1 = 0 ∧
    ObjStore.contains_id
      (⟨[some ⟨(), none⟩], [0], [], 1⟩ : ObjStore Unit) 0 = true ∧
    (ObjStore.insert
      (⟨[some ⟨(), none⟩], [0], [], 1⟩ : ObjStore Unit) () none).1 = 0 ∧
    (ObjStore.insert
      (⟨[some ⟨(), none⟩], [0], [], 1⟩ : ObjStore Unit) () none).2.entries =
      (⟨[some ⟨(), none⟩], [0], [], 1⟩ :
        ObjStore Unit).entries.set 0 (some ⟨(), none⟩) ∧
    (ObjStore.insert
      (⟨[some ⟨(), none⟩], [0], [], 1⟩ : ObjStore Unit) () none).2.entries.length =
      (⟨[some ⟨(), none⟩], [0], [], 1⟩ : ObjStore Unit).entries.length ∧
    (ObjStore.insert
      (⟨[some ⟨(), none⟩], [0], [], 1⟩ : ObjStore Unit) () none).2.obj_to_ids =
      (⟨[some ⟨(), none⟩], [0], [], 1⟩ : ObjStore Unit).obj_to_ids :=
  @c10_stale_free_list Unit ⟨[some ⟨(), none⟩], [], [], 1⟩ 0 ⟨(), none⟩
    ⟨[none], [0], [], 0⟩ rfl () none false
    ⟨[some ⟨(), none⟩], [0], [], 1⟩ rfl () none

end FastQuadtree
